import Mathlib

/-! # eth-proxy: the endpoint pool of `internal/eth_client/eth_client.go`

A shallow embedding of `NodeProxy` (the two endpoint maps, the read/write
mutex and the operations on them) and the properties of its failover,
consensus and recovery code.

Modelling conventions.

* A Go `map[string]T` is a `GoMap T`: the list of its entries.  Go leaves the
  order of a `range` over a map unspecified; the entry that `getClient` takes
  from its `range` is chosen by an explicit selection function `sel`, every
  other `range` visits the entries in list order, which only fixes the order of
  the collected messages and of the entries of the resulting maps.  Properties
  are stated through `GoMap.get?` and membership.
* `sync.RWMutex` is explicit state (`RWMutex`); a call executed by one
  goroutine either returns (`Outcome.ret`) or waits for ever on the mutex
  (`Outcome.blocked`).
* Upstream endpoints are a parameter (`Upstream`): what each endpoint answers
  to a balance query and to a height query during the call at hand.
* The logger and the `stop` channel have no influence on the pool state and are
  left out.
-/

namespace EthProxy

/-! ## Data model -/

/-- A non-nil `EthClient` interface value, identified by a number. -/
abbrev EthClient := Nat

/-- A Go `error` value: its message and whether `errors.Is(err, context.Canceled)` holds. -/
structure GoError where
  msg : String
  isCanceled : Bool
deriving DecidableEq, Repr

/-- The value `errors.New("no healthy client found")` of `BalanceAt`. -/
def errNoHealthyClient : GoError := ⟨"no healthy client found", false⟩

/-- The condition `err != nil && !errors.Is(err, context.Canceled)`. -/
def isFault : Option GoError → Bool
  | some e => !e.isCanceled
  | none => false

/-- A Go `map[string]T`, as the list of its entries. -/
abbrev GoMap (β : Type) := List (String × β)

namespace GoMap

variable {β : Type}

/-- The keys of the map. -/
def keys (m : GoMap β) : List String := m.map Prod.fst

/-- Lookup `m[k]` with the comma-ok result. -/
def get? : GoMap β → String → Option β
  | [], _ => none
  | (k', v) :: m, k => if k' = k then some v else get? m k

/-- The builtin `delete(m, k)`. -/
def delete (m : GoMap β) (k : String) : GoMap β :=
  m.filter (fun e => decide (e.1 ≠ k))

/-- The assignment `m[k] = v`. -/
def set (m : GoMap β) (k : String) (v : β) : GoMap β :=
  m.delete k ++ [(k, v)]

end GoMap

/-- The type `HealthCheckErrors []string`. -/
abbrev HealthCheckErrors := List String

/-- The constant `maxBlockDiff`. -/
def maxBlockDiff : Nat := 3

/-- The state of a `sync.RWMutex`: number of read locks held, and whether the write lock is held. -/
structure RWMutex where
  readers : Nat
  writer : Bool
deriving DecidableEq, Repr

namespace RWMutex

/-- An unlocked mutex (the zero value). -/
def free : RWMutex := ⟨0, false⟩

/-- The method `RLock`: `none` when the caller has to wait (the write lock is held). -/
def RLock (m : RWMutex) : Option RWMutex :=
  if m.writer then none else some { m with readers := m.readers + 1 }

/-- The method `RUnlock`, called by a holder of a read lock. -/
def RUnlock (m : RWMutex) : RWMutex := { m with readers := m.readers - 1 }

/-- The method `Lock`: `none` when the caller has to wait (some lock is held). -/
def Lock (m : RWMutex) : Option RWMutex :=
  if m.writer || m.readers != 0 then none else some { m with writer := true }

/-- The method `Unlock`, called by the holder of the write lock. -/
def Unlock (m : RWMutex) : RWMutex := { m with writer := false }

end RWMutex

/-- The struct `NodeProxy` (fields `stop` and `l` left out).  The field `clientCount`, a Go
`int` that is only ever incremented, once per call of `AddClient`, is an unbounded
integer here: no execution makes the `2 ^ 63` calls that would make it wrap. -/
structure NodeProxy where
  clients : GoMap EthClient
  unhealthy : GoMap EthClient
  mu : RWMutex
  clientCount : Int
deriving DecidableEq, Repr

/-- The result of a call made by a single goroutine: it returns a value and leaves a
state, or it waits for ever on `np.mu` in the given state. -/
inductive Outcome (α : Type) where
  | ret : α → NodeProxy → Outcome α
  | blocked : NodeProxy → Outcome α
deriving DecidableEq, Repr

/-- What the upstream endpoints answer during one call: the result of `BalanceAt` and
of `BlockNumber` of the client stored under an id. -/
structure Upstream where
  BalanceAt : String → EthClient → Option Int × Option GoError
  BlockNumber : String → EthClient → Nat × Option GoError

/-- A completed run of a call together with the ids whose upstream `BalanceAt` was
invoked, in order. -/
structure Run (α : Type) where
  out : Outcome α
  queried : List String
deriving DecidableEq, Repr

/-! ## Operations -/

/-- The function `NewNodeProxy`. -/
def NewNodeProxy : NodeProxy :=
  { clients := [], unhealthy := [], mu := RWMutex.free, clientCount := 0 }

/-- The method `AddClient`. -/
def AddClient (np : NodeProxy) (url : String) (client : EthClient) : Outcome Unit :=
  match np.mu.Lock with
  | none => .blocked np
  | some mu1 =>
    .ret () { clients := np.clients.set url client
              unhealthy := np.unhealthy
              mu := mu1.Unlock
              clientCount := np.clientCount + 1 }

/-- The method `setUnhealthy`. -/
def setUnhealthy (np : NodeProxy) (index : String) (client : EthClient) : Outcome Unit :=
  match np.mu.Lock with
  | none => .blocked np
  | some mu1 =>
    .ret () { clients := np.clients.delete index
              unhealthy := np.unhealthy.set index client
              mu := mu1.Unlock
              clientCount := np.clientCount }

/-- The first entry visited by a `range` over `m`, as chosen by `sel`. -/
def rangeFirst (sel : GoMap EthClient → Nat) (m : GoMap EthClient) :
    Option (String × EthClient) :=
  List.get? m (sel m % m.length)

/-- The method `getClient`; `none` stands for the result `(nil, "")`. -/
def getClient (sel : GoMap EthClient → Nat) (np : NodeProxy) :
    Outcome (Option (EthClient × String)) :=
  match np.mu.RLock with
  | none => .blocked np
  | some mu1 =>
    let np1 : NodeProxy := { np with mu := mu1 }
    let np2 : NodeProxy := { np1 with mu := np1.mu.RUnlock }
    if np1.clients.length = 0 then .ret none np2
    else
      match rangeFirst sel np1.clients with
      | some (i, client) => .ret (some (client, i)) np2
      | none => .ret none np2

/-- The method `BalanceAt`, with a bound on the depth of the recursion; `none` when the
bound is reached. -/
def BalanceAtFuel (sel : GoMap EthClient → Nat) (up : Upstream) :
    Nat → NodeProxy → Option (Run (Option Int × Option GoError))
  | 0, _ => none
  | fuel + 1, np =>
    match getClient sel np with
    | .blocked s => some ⟨.blocked s, []⟩
    | .ret none np1 => some ⟨.ret (none, some errNoHealthyClient) np1, []⟩
    | .ret (some (c, index)) np1 =>
      let (balance, err) := up.BalanceAt index c
      if isFault err then
        match setUnhealthy np1 index c with
        | .blocked s => some ⟨.blocked s, [index]⟩
        | .ret () np2 =>
          (BalanceAtFuel sel up fuel np2).map
            (fun r => { r with queried := index :: r.queried })
      else
        some ⟨.ret (balance, none) np1, [index]⟩

/-- The method `BalanceAt`: the recursion is given one level per healthy endpoint and
one more. -/
def BalanceAt (sel : GoMap EthClient → Nat) (up : Upstream) (np : NodeProxy) :
    Option (Run (Option Int × Option GoError)) :=
  BalanceAtFuel sel up (np.clients.length + 1) np

/-- One iteration of the first loop of `checkUnhealthy`; the accumulator holds `np.clients`
and the slice `unsetUnhealthy`. -/
def probeStep (up : Upstream) (acc : GoMap EthClient × List String) (e : String × EthClient) :
    GoMap EthClient × List String :=
  if ((up.BlockNumber e.1 e.2).2).isSome then (acc.1.set e.1 e.2, acc.2 ++ [e.1]) else acc

/-- The second loop of `checkUnhealthy`: `delete(m, i)` for every `i` of the slice. -/
def deleteKeys (m : GoMap EthClient) (ids : List String) : GoMap EthClient :=
  ids.foldl (fun m i => m.delete i) m

/-- The method `checkUnhealthy`: one tick of the recovery probe. -/
def checkUnhealthy (up : Upstream) (np : NodeProxy) : Outcome Unit :=
  match np.mu.Lock with
  | none => .blocked np
  | some mu1 =>
    if np.unhealthy.length = 0 then .ret () { np with mu := mu1.Unlock }
    else
      let probe : GoMap EthClient × List String :=
        np.unhealthy.foldl (probeStep up) (np.clients, [])
      .ret () { clients := probe.1
                unhealthy := deleteKeys np.unhealthy probe.2
                mu := mu1.Unlock
                clientCount := np.clientCount }

/-- Subtraction of `uint64` values. -/
def uint64Sub (a b : Nat) : Nat := (a + (2 ^ 64 - b % 2 ^ 64)) % 2 ^ 64

/-- The local variables of `BlockNumber` during its first loop. -/
structure Scan where
  blockNumbers : GoMap Nat
  unhealthy : GoMap EthClient
  lowest : Nat
  highest : Nat
  errStr : HealthCheckErrors
deriving DecidableEq, Repr

/-- The part of the loop body of `BlockNumber` that records the height `block` answered by
endpoint `i`. -/
def Scan.sample (st : Scan) (i : String) (block : Nat) : Scan :=
  { st with lowest := if st.lowest < block then block else st.lowest
            highest := if block > st.highest then block else st.highest
            blockNumbers := st.blockNumbers.set i block }

/-- One iteration of the loop of `BlockNumber` over `np.clients`. -/
def scanStep (up : Upstream) (st : Scan) (e : String × EthClient) : Scan :=
  let r := up.BlockNumber e.1 e.2
  match r.2 with
  | some er =>
    if !er.isCanceled then
      { st with unhealthy := st.unhealthy.set e.1 e.2, errStr := st.errStr ++ [er.msg] }
    else st.sample e.1 r.1
  | none => st.sample e.1 r.1

/-- The loop of `BlockNumber` over `np.clients`, from the initial values of the local
variables. -/
def scanClients (up : Upstream) (clients : GoMap EthClient) : Scan :=
  clients.foldl (scanStep up) ⟨[], [], 0, 0, []⟩

/-- One iteration of the loop of `BlockNumber` over `blockNumbers`.  Every key of
`blockNumbers` is a key of `np.clients`, so the lookup `np.clients[i]` finds an entry. -/
def lagStep (clients : GoMap EthClient) (st : Scan) (e : String × Nat) : Scan :=
  if e.2 = st.lowest then
    { st with errStr := st.errStr ++ ["client " ++ e.1 ++ " is unhealthy due to block difference"]
              unhealthy := match clients.get? e.1 with
                | some c => st.unhealthy.set e.1 c
                | none => st.unhealthy }
  else st

/-- The loop of `BlockNumber` that calls `setUnhealthy` on every entry of the local map
`unhealthy`. -/
def setUnhealthyAll : NodeProxy → List (String × EthClient) → Outcome Unit
  | np, [] => .ret () np
  | np, (i, c) :: rest =>
    match setUnhealthy np i c with
    | .blocked s => .blocked s
    | .ret () np1 => setUnhealthyAll np1 rest

/-- The message `fmt.Sprintf("client %s is unhealthy", i)`. -/
def unhealthyMsg (i : String) : String := "client " ++ i ++ " is unhealthy"

/-- The block of `BlockNumber` guarded by `math.Abs(float64(highest-lowest)) > maxBlockDiff`,
which is the test `highest-lowest > 3` on the `uint64` difference. -/
def lagCheck (clients : GoMap EthClient) (s1 : Scan) : Scan :=
  if uint64Sub s1.highest s1.lowest > maxBlockDiff then
    s1.blockNumbers.foldl (lagStep clients) s1
  else s1

/-- The method `BlockNumber`.  The code returns the error `fmt.Errorf(errStr.Error())` when
the slice `errStr` is not empty and a nil error otherwise; the result `some errStr` stands
for that non-nil error and carries the slice it is made from.  The text of the error (the
JSON rendering of the slice, passed through `fmt.Errorf` as a format string) is not part
of the model. -/
def BlockNumber (up : Upstream) (np : NodeProxy) : Outcome (Nat × Option HealthCheckErrors) :=
  match np.mu.RLock with
  | none => .blocked np
  | some mu1 =>
    let np1 : NodeProxy := { np with mu := mu1 }
    let s2 : Scan := lagCheck np1.clients (scanClients up np1.clients)
    match setUnhealthyAll np1 s2.unhealthy with
    | .blocked s => .blocked s
    | .ret () np2 =>
      let errStr : HealthCheckErrors :=
        s2.errStr ++ np2.unhealthy.map (fun e => unhealthyMsg e.1)
      let np3 : NodeProxy := { np2 with mu := np2.mu.RUnlock }
      if errStr.length > 0 then .ret (s2.highest, some errStr) np3
      else .ret (s2.highest, none) np3

/-! ## Specification-level definitions -/

/-- The entries that successive calls of `getClient` hand out, in order, when every entry
handed out is removed from the map (by `setUnhealthy`) before the next call; at most `n`
entries. -/
def selectionOrder (sel : GoMap EthClient → Nat) : Nat → GoMap EthClient → List (String × EthClient)
  | 0, _ => []
  | n + 1, m =>
    match rangeFirst sel m with
    | none => []
    | some e => e :: selectionOrder sel n (m.delete e.1)

/-- The order in which `getClient` hands out all entries of `m`, each removed before the
next call. -/
def demotionOrder (sel : GoMap EthClient → Nat) (m : GoMap EthClient) : List (String × EthClient) :=
  selectionOrder sel m.length m

/-- The pool after the entries of `l` have been moved, one after the other, from the
healthy map to the unhealthy map. -/
def demoteAll (np : NodeProxy) (l : List (String × EthClient)) : NodeProxy :=
  l.foldl
    (fun s e => { s with clients := s.clients.delete e.1, unhealthy := s.unhealthy.set e.1 e.2 })
    np

/-! ### Example pools and upstream behaviours -/

/-- An upstream whose endpoints all fail the balance query with "test error" and report
height 0. -/
def failingUpstream : Upstream :=
  { BalanceAt := fun _ _ => (none, some ⟨"test error", false⟩)
    BlockNumber := fun _ _ => (0, none) }

/-- An upstream whose endpoints all answer with `context.Canceled`. -/
def canceledUpstream : Upstream :=
  { BalanceAt := fun _ _ => (none, some ⟨"context canceled", true⟩)
    BlockNumber := fun _ _ => (0, some ⟨"context canceled", true⟩) }

/-- An upstream in which endpoint "b" answers the balance query with 10 and every other
endpoint fails with "test error". -/
def oneGoodUpstream : Upstream :=
  { BalanceAt := fun i _ => if i = "b" then (some 10, none) else (none, some ⟨"test error", false⟩)
    BlockNumber := fun _ _ => (0, none) }

/-- The pool with the single healthy endpoint "fail.com". -/
def singlePool : NodeProxy :=
  { clients := [("fail.com", 1)], unhealthy := [], mu := RWMutex.free, clientCount := 1 }

/-- The pool with the healthy endpoints "a", "b" and "c". -/
def triplePool : NodeProxy :=
  { clients := [("a", 1), ("b", 2), ("c", 3)], unhealthy := [], mu := RWMutex.free,
    clientCount := 3 }

/-- An upstream whose endpoints all answer the height query with `(0, nil)`, as the mock
of the test `TestNodeProxy_SetHealthy` does. -/
def answeringUpstream : Upstream :=
  { BalanceAt := fun _ _ => (some 10, none)
    BlockNumber := fun _ _ => (0, none) }

/-- An upstream whose endpoints all fail the height query with "connection refused". -/
def unreachableUpstream : Upstream :=
  { BalanceAt := fun _ _ => (none, some ⟨"connection refused", false⟩)
    BlockNumber := fun _ _ => (0, some ⟨"connection refused", false⟩) }

/-- An upstream whose endpoints answer the height query successfully: endpoint "a" with
100, "b" with `hb`, "c" with `hc`, any other with 0. -/
def heightsUpstream (hb hc : Nat) : Upstream :=
  { BalanceAt := fun _ _ => (some 10, none)
    BlockNumber := fun i _ =>
      if i = "a" then (100, none) else if i = "b" then (hb, none)
      else if i = "c" then (hc, none) else (0, none) }

/-- The pool with the healthy endpoints "a" and "b". -/
def pairPool : NodeProxy :=
  { clients := [("a", 1), ("b", 2)], unhealthy := [], mu := RWMutex.free, clientCount := 2 }

/-- The pool of the test `TestNodeProxy_SetHealthy`: no healthy endpoint, the unhealthy
endpoint "a". -/
def demotedPool : NodeProxy :=
  { clients := [], unhealthy := [("a", 1)], mu := RWMutex.free, clientCount := 0 }

/-- The pool with the healthy endpoint "a" and the unhealthy endpoint "b". -/
def mixedPool : NodeProxy :=
  { clients := [("a", 1)], unhealthy := [("b", 2)], mu := RWMutex.free, clientCount := 2 }

/-- An upstream in which endpoint "a" answers the height query with `(100, nil)` and every
other endpoint fails it with "connection refused". -/
def partlyFaultyUpstream : Upstream :=
  { BalanceAt := fun _ _ => (some 10, none)
    BlockNumber := fun i _ =>
      if i = "a" then (100, none) else (0, some ⟨"connection refused", false⟩) }

/-- The state `np` while the caller holds one read lock of the unlocked mutex. -/
def readLocked (np : NodeProxy) : NodeProxy := { np with mu := ⟨1, false⟩ }

/-- The height reported by an entry of the healthy map. -/
def heightOf (up : Upstream) (e : String × EthClient) : Nat := (up.BlockNumber e.1 e.2).1

/-- The largest height reported by the entries of `m`, 0 for an empty map. -/
def maxHeight (up : Upstream) (m : GoMap EthClient) : Nat :=
  m.foldl (fun a e => max a (heightOf up e)) 0

/-! ### Call sequences -/

/-- The state in which a call ends: the state it returns in, or the state in which it
waits. -/
def Outcome.state {α : Type} : Outcome α → NodeProxy
  | .ret _ np => np
  | .blocked np => np

/-- A call of one of the operations of the pool, with its arguments and, for the
operations that query the endpoints, with the answers of the endpoints. -/
inductive Call where
  | addClient (url : String) (client : EthClient)
  | demote (index : String) (client : EthClient)
  | probeTick (up : Upstream)
  | balanceAt (sel : GoMap EthClient → Nat) (up : Upstream)
  | blockNumber (up : Upstream)

/-- A pool together with the ids for which a call of `AddClient` has returned. -/
structure History where
  np : NodeProxy
  added : List String
deriving DecidableEq, Repr

/-- The effect of one call: `addClient` is `AddClient`, `demote` is `setUnhealthy`,
`probeTick` is `checkUnhealthy`, `balanceAt` is `BalanceAt`, `blockNumber` is
`BlockNumber`. -/
def Call.exec (t : History) : Call → History
  | .addClient url client =>
    match AddClient t.np url client with
    | .ret () np1 => ⟨np1, url :: t.added⟩
    | .blocked np1 => ⟨np1, t.added⟩
  | .demote index client => ⟨(setUnhealthy t.np index client).state, t.added⟩
  | .probeTick up => ⟨(checkUnhealthy up t.np).state, t.added⟩
  | .balanceAt sel up =>
    match BalanceAt sel up t.np with
    | some r => ⟨r.out.state, t.added⟩
    | none => t
  | .blockNumber up => ⟨(BlockNumber up t.np).state, t.added⟩

/-- The history reached from `NewNodeProxy` by a sequence of calls. -/
def reachedBy (calls : List Call) : History :=
  calls.foldl Call.exec ⟨NewNodeProxy, []⟩

/-- No call of `AddClient` in the sequence, run from `t`, is made for an id that is a key
of the unhealthy map at the time of the call. -/
def addsAvoidUnhealthy : History → List Call → Prop
  | _, [] => True
  | t, c :: cs =>
    (match c with
      | .addClient url _ => url ∉ t.np.unhealthy.keys
      | _ => True) ∧ addsAvoidUnhealthy (c.exec t) cs

/-- No id is a key of both maps. -/
def KeysDisjoint (np : NodeProxy) : Prop :=
  ∀ k, k ∈ np.clients.keys → k ∉ np.unhealthy.keys

/-- The step from `np` to `np1` loses no key and keeps the two key sets disjoint. -/
def Moves (np np1 : NodeProxy) : Prop :=
  (∀ k, k ∈ np.clients.keys ∨ k ∈ np.unhealthy.keys →
    k ∈ np1.clients.keys ∨ k ∈ np1.unhealthy.keys) ∧
  (KeysDisjoint np → KeysDisjoint np1)

/-- Every id of `added` is a key of one of the two maps. -/
def Covered (t : History) : Prop :=
  ∀ id ∈ t.added, id ∈ t.np.clients.keys ∨ id ∈ t.np.unhealthy.keys

/-- The calls `AddClient("a")`, a `BalanceAt` on which "a" fails, and `AddClient("a")` again. -/
def readdCalls : List Call :=
  [.addClient "a" 1, .balanceAt (fun _ => 0) failingUpstream, .addClient "a" 1]

/-- The calls `AddClient("a")`, `AddClient("b")`, a `BalanceAt` on which "a" fails and "b"
answers, a probe tick on which no endpoint answers, and a `BlockNumber`. -/
def sampleCalls : List Call :=
  [.addClient "a" 1, .addClient "b" 2, .balanceAt (fun _ => 0) oneGoodUpstream,
   .probeTick unreachableUpstream, .blockNumber answeringUpstream]


/-! ## Lemmas on maps -/

namespace GoMap

variable {β : Type}

theorem mem_keys_of_mem {m : GoMap β} {e : String × β} (h : e ∈ m) : e.1 ∈ m.keys :=
  List.mem_map_of_mem Prod.fst h

theorem get?_eq_none_iff (m : GoMap β) (k : String) : m.get? k = none ↔ k ∉ m.keys := by
  induction m with
  | nil => simp [get?, keys]
  | cons e m ih =>
    obtain ⟨k', v⟩ := e
    by_cases h : k' = k
    · simp [get?, keys, h]
    · have h' : ¬ k = k' := fun x => h x.symm
      simpa [get?, keys, h, h'] using ih

theorem get?_of_mem_of_nodup {m : GoMap β} {k : String} {v : β} (hn : m.keys.Nodup)
    (h : (k, v) ∈ m) : m.get? k = some v := by
  induction m with
  | nil => simp at h
  | cons e m ih =>
    obtain ⟨k', v'⟩ := e
    simp only [keys, List.map_cons, List.nodup_cons] at hn
    rcases List.mem_cons.1 h with h1 | h1
    · cases h1
      simp [get?]
    · have hk : k' ≠ k := by
        intro hk
        subst hk
        exact hn.1 (mem_keys_of_mem h1)
      simp [get?, hk, ih hn.2 h1]

theorem mem_of_get? {m : GoMap β} {k : String} {v : β} (h : m.get? k = some v) : (k, v) ∈ m := by
  induction m with
  | nil => simp [get?] at h
  | cons e m ih =>
    obtain ⟨k', v'⟩ := e
    by_cases hk : k' = k
    · simp [get?, hk] at h
      simp [hk, h]
    · simp [get?, hk] at h
      exact List.mem_cons_of_mem _ (ih h)

theorem keys_delete (m : GoMap β) (k : String) :
    (m.delete k).keys = m.keys.filter (fun x => decide (x ≠ k)) := by
  induction m with
  | nil => rfl
  | cons e m ih =>
    by_cases h : e.1 = k
    · simpa [delete, keys, List.filter_cons, h] using ih
    · simpa [delete, keys, List.filter_cons, h] using ih

theorem mem_keys_delete (m : GoMap β) (k j : String) :
    j ∈ (m.delete k).keys ↔ j ∈ m.keys ∧ j ≠ k := by
  simp [keys_delete]

theorem nodup_keys_delete {m : GoMap β} (k : String) (hn : m.keys.Nodup) :
    (m.delete k).keys.Nodup := by
  rw [keys_delete]
  exact hn.filter _

theorem get?_delete_self (m : GoMap β) (k : String) : (m.delete k).get? k = none := by
  rw [get?_eq_none_iff, mem_keys_delete]
  simp

theorem get?_delete_ne (m : GoMap β) {k j : String} (h : j ≠ k) :
    (m.delete k).get? j = m.get? j := by
  induction m with
  | nil => rfl
  | cons e m ih =>
    obtain ⟨k', v⟩ := e
    have ih' : get? (List.filter (fun e => decide (e.1 ≠ k)) m) j = get? m j := ih
    by_cases hk : k' = k
    · subst hk
      have hj : ¬ k' = j := fun x => h x.symm
      simp only [delete, List.filter_cons, get?, hj, if_false, ne_eq, not_true_eq_false,
        decide_False, Bool.false_eq_true]
      exact ih'
    · by_cases hj : k' = j
      · subst hj
        simp [delete, List.filter_cons, h, get?]
      · simp only [delete, List.filter_cons, get?, hj, if_false, ne_eq, hk, not_false_eq_true,
          decide_True, if_true]
        exact ih'

theorem get?_append (m n : GoMap β) (k : String) :
    (m ++ n).get? k = (m.get? k).orElse (fun _ => n.get? k) := by
  induction m with
  | nil => simp [get?]
  | cons e m ih =>
    obtain ⟨k', v⟩ := e
    by_cases hk : k' = k
    · simp [get?, hk]
    · simpa [get?, hk] using ih

theorem get?_set_self (m : GoMap β) (k : String) (v : β) : (m.set k v).get? k = some v := by
  simp [set, get?_append, get?_delete_self, get?]

theorem get?_set_ne (m : GoMap β) {k j : String} (v : β) (h : j ≠ k) :
    (m.set k v).get? j = m.get? j := by
  have h' : ¬ k = j := fun x => h x.symm
  simp [set, get?_append, get?_delete_ne m h, get?, h']

theorem keys_set (m : GoMap β) (k : String) (v : β) :
    (m.set k v).keys = (m.delete k).keys ++ [k] := by
  simp [set, keys]

theorem mem_keys_set (m : GoMap β) (k j : String) (v : β) :
    j ∈ (m.set k v).keys ↔ j ∈ m.keys ∨ j = k := by
  rw [keys_set, List.mem_append, mem_keys_delete]
  by_cases h : j = k <;> simp [h]

theorem nodup_keys_set {m : GoMap β} (k : String) (v : β) (hn : m.keys.Nodup) :
    (m.set k v).keys.Nodup := by
  rw [keys_set]
  refine List.Nodup.append (nodup_keys_delete k hn) (List.nodup_singleton k) ?_
  intro x hx hx'
  rw [mem_keys_delete] at hx
  exact hx.2 (List.mem_singleton.1 hx')

theorem length_delete_lt {m : GoMap β} {k : String} (h : k ∈ m.keys) :
    (m.delete k).length < m.length := by
  obtain ⟨e, he, hk⟩ := List.mem_map.1 h
  exact List.length_filter_lt_length_iff_exists.2 ⟨e, he, by simp [hk]⟩

theorem length_delete_le (m : GoMap β) (k : String) : (m.delete k).length ≤ m.length :=
  List.length_filter_le _ _

end GoMap


/-! ## Lemmas on the operations -/

theorem rangeFirst_eq_none_iff (sel : GoMap EthClient → Nat) (m : GoMap EthClient) :
    rangeFirst sel m = none ↔ m = [] := by
  unfold rangeFirst
  rw [List.get?_eq_none]
  constructor
  · intro h
    by_contra hne
    have hpos : 0 < m.length := List.length_pos.2 hne
    exact absurd (Nat.mod_lt (sel m) hpos) (Nat.not_lt.2 h)
  · rintro rfl
    simp

theorem rangeFirst_mem {sel : GoMap EthClient → Nat} {m : GoMap EthClient}
    {e : String × EthClient} (h : rangeFirst sel m = some e) : e ∈ m :=
  List.get?_mem h

theorem getClient_of_free (sel : GoMap EthClient → Nat) (np : NodeProxy)
    (hmu : np.mu = RWMutex.free) :
    getClient sel np = .ret ((rangeFirst sel np.clients).map (fun e => (e.2, e.1))) np := by
  obtain ⟨cl, un, mu, n⟩ := np
  simp only at hmu
  subst hmu
  cases hr : rangeFirst sel cl with
  | none =>
    have hcl : cl = [] := (rangeFirst_eq_none_iff sel cl).1 hr
    subst hcl
    simp [getClient, RWMutex.RLock, RWMutex.RUnlock, RWMutex.free]
  | some e =>
    have hne : cl ≠ [] := fun h => by
      rw [(rangeFirst_eq_none_iff sel cl).2 h] at hr
      cases hr
    have hlen : cl.length ≠ 0 := fun h => hne (List.length_eq_zero.1 h)
    simp [getClient, RWMutex.RLock, RWMutex.RUnlock, RWMutex.free, hlen, hr]

theorem setUnhealthy_of_free (np : NodeProxy) (index : String) (client : EthClient)
    (hmu : np.mu = RWMutex.free) :
    setUnhealthy np index client =
      .ret () { np with clients := np.clients.delete index
                        unhealthy := np.unhealthy.set index client } := by
  obtain ⟨cl, un, mu, n⟩ := np
  simp only at hmu
  subst hmu
  simp [setUnhealthy, RWMutex.Lock, RWMutex.Unlock, RWMutex.free]

theorem BalanceAtFuel_succ_none (sel : GoMap EthClient → Nat) (up : Upstream) (fuel : Nat)
    (np : NodeProxy) (hmu : np.mu = RWMutex.free) (hr : rangeFirst sel np.clients = none) :
    BalanceAtFuel sel up (fuel + 1) np = some ⟨.ret (none, some errNoHealthyClient) np, []⟩ := by
  simp [BalanceAtFuel, getClient_of_free sel np hmu, hr]

theorem BalanceAtFuel_succ_fault (sel : GoMap EthClient → Nat) (up : Upstream) (fuel : Nat)
    (np : NodeProxy) (i : String) (c : EthClient) (hmu : np.mu = RWMutex.free)
    (hr : rangeFirst sel np.clients = some (i, c))
    (hf : isFault (up.BalanceAt i c).2 = true) :
    BalanceAtFuel sel up (fuel + 1) np =
      (BalanceAtFuel sel up fuel
          { np with clients := np.clients.delete i, unhealthy := np.unhealthy.set i c }).map
        (fun r => { r with queried := i :: r.queried }) := by
  simp [BalanceAtFuel, getClient_of_free sel np hmu, hr, hf, setUnhealthy_of_free np i c hmu]

theorem BalanceAtFuel_succ_ok (sel : GoMap EthClient → Nat) (up : Upstream) (fuel : Nat)
    (np : NodeProxy) (i : String) (c : EthClient) (hmu : np.mu = RWMutex.free)
    (hr : rangeFirst sel np.clients = some (i, c))
    (hf : isFault (up.BalanceAt i c).2 = false) :
    BalanceAtFuel sel up (fuel + 1) np = some ⟨.ret ((up.BalanceAt i c).1, none) np, [i]⟩ := by
  simp [BalanceAtFuel, getClient_of_free sel np hmu, hr, hf]



/-! ## Failover: `BalanceAt` -/

theorem BalanceAtFuel_all_fault (sel : GoMap EthClient → Nat) (up : Upstream) :
    ∀ (fuel : Nat) (np : NodeProxy), np.mu = RWMutex.free → np.clients.keys.Nodup →
      np.clients.length < fuel →
      (∀ e ∈ np.clients, isFault (up.BalanceAt e.1 e.2).2 = true) →
      ∃ np1 q, BalanceAtFuel sel up fuel np =
          some ⟨.ret (none, some errNoHealthyClient) np1, q⟩ ∧
        np1.clients = [] ∧
        (∀ e ∈ np.clients, np1.unhealthy.get? e.1 = some e.2) ∧
        (∀ k, k ∉ np.clients.keys → np1.unhealthy.get? k = np.unhealthy.get? k) := by
  intro fuel
  induction fuel with
  | zero => intro np _ _ h; exact absurd h (Nat.not_lt_zero _)
  | succ fuel ih =>
    intro np hmu hn hlen hfail
    cases hr : rangeFirst sel np.clients with
    | none =>
      have hcl : np.clients = [] := (rangeFirst_eq_none_iff sel _).1 hr
      refine ⟨np, [], BalanceAtFuel_succ_none sel up fuel np hmu hr, hcl, ?_, fun k _ => rfl⟩
      intro e he
      rw [hcl] at he
      cases he
    | some e =>
      obtain ⟨i, c⟩ := e
      have hmem : (i, c) ∈ np.clients := rangeFirst_mem hr
      have hik : i ∈ np.clients.keys := GoMap.mem_keys_of_mem hmem
      have hlt := GoMap.length_delete_lt hik
      obtain ⟨np1, q, hrun, hcl, hmoved, hkept⟩ :=
        ih { np with clients := np.clients.delete i, unhealthy := np.unhealthy.set i c } hmu
          (GoMap.nodup_keys_delete i hn) (by simp only; omega)
          (fun e he => hfail e (List.mem_of_mem_filter he))
      refine ⟨np1, i :: q, ?_, hcl, ?_, ?_⟩
      · rw [BalanceAtFuel_succ_fault sel up fuel np i c hmu hr (hfail _ hmem), hrun]
        rfl
      · intro e he
        by_cases hei : e.1 = i
        · have hec : e.2 = c := by
            have h1 := GoMap.get?_of_mem_of_nodup hn (show (e.1, e.2) ∈ np.clients from he)
            have h2 := GoMap.get?_of_mem_of_nodup hn hmem
            rw [hei, h2] at h1
            exact (Option.some.inj h1).symm
          have h3 := hkept i (by simp [GoMap.mem_keys_delete])
          simp only at h3
          rw [hei, hec, h3, GoMap.get?_set_self]
        · apply hmoved
          exact List.mem_filter.2 ⟨he, by simpa using hei⟩
      · intro k hk
        have hki : k ≠ i := fun h => hk (h ▸ hik)
        have h3 := hkept k (by simp [GoMap.mem_keys_delete, hk])
        simp only at h3
        rw [h3, GoMap.get?_set_ne _ _ hki]

/-- C1 (exhaustion): when every healthy endpoint answers the balance query with an error
that is not `context.Canceled`, `BalanceAt` returns a nil balance and the error
"no healthy client found"; afterwards the healthy map is empty and every endpoint that was
healthy at the start is in the unhealthy map under its id with its original handle. -/
theorem BalanceAt_exhaustion (sel : GoMap EthClient → Nat) (up : Upstream) (np : NodeProxy)
    (hmu : np.mu = RWMutex.free) (hn : np.clients.keys.Nodup)
    (hfail : ∀ e ∈ np.clients, isFault (up.BalanceAt e.1 e.2).2 = true) :
    ∃ np1 q, BalanceAt sel up np = some ⟨.ret (none, some errNoHealthyClient) np1, q⟩ ∧
      np1.clients = [] ∧
      ∀ e ∈ np.clients, np1.unhealthy.get? e.1 = some e.2 := by
  obtain ⟨np1, q, h1, h2, h3, _⟩ :=
    BalanceAtFuel_all_fault sel up (np.clients.length + 1) np hmu hn (Nat.lt_succ_self _) hfail
  exact ⟨np1, q, h1, h2, h3⟩



/-- Witness of C1: the pool of the test `TestNodeProxy_FailedRequestMovesClientToUnhealthy`. -/
theorem BalanceAt_exhaustion_witness :
    ∃ np1 q, BalanceAt (fun _ => 0) failingUpstream singlePool =
        some ⟨.ret (none, some errNoHealthyClient) np1, q⟩ ∧
      np1.clients = [] ∧
      ∀ e ∈ singlePool.clients, np1.unhealthy.get? e.1 = some e.2 :=
  BalanceAt_exhaustion (fun _ => 0) failingUpstream singlePool rfl (by decide)
    (fun _ _ => rfl)

theorem BalanceAt_of_canceled (sel : GoMap EthClient → Nat) (up : Upstream) (np : NodeProxy)
    (i : String) (c : EthClient) (e : GoError) (hmu : np.mu = RWMutex.free)
    (hr : rangeFirst sel np.clients = some (i, c))
    (he : (up.BalanceAt i c).2 = some e) (hc : e.isCanceled = true) :
    BalanceAt sel up np = some ⟨.ret ((up.BalanceAt i c).1, none) np, [i]⟩ := by
  unfold BalanceAt
  exact BalanceAtFuel_succ_ok sel up _ np i c hmu hr (by simp [he, isFault, hc])

/-- C3 (code defect): on the pool with the single healthy endpoint "fail.com" whose balance
query returns `(nil, context.Canceled)`, `BalanceAt` returns a nil balance and a nil
error: the cancellation error is dropped instead of being returned to the caller. -/
theorem BalanceAt_canceled_returns_nil_error :
    BalanceAt (fun _ => 0) canceledUpstream singlePool =
      some ⟨.ret (none, none) singlePool, ["fail.com"]⟩ := by
  decide

/-- C4 (no demotion on cancellation): when the endpoint selected by `BalanceAt` answers
with an error that is `context.Canceled`, the call returns after this single upstream
query and the pool state after the call, the healthy and the unhealthy map in particular,
is the state before the call. -/
theorem BalanceAt_canceled_state_unchanged (sel : GoMap EthClient → Nat) (up : Upstream)
    (np : NodeProxy) (i : String) (c : EthClient) (e : GoError)
    (hmu : np.mu = RWMutex.free)
    (hr : rangeFirst sel np.clients = some (i, c))
    (he : (up.BalanceAt i c).2 = some e) (hc : e.isCanceled = true) :
    ∃ v np1, BalanceAt sel up np = some ⟨.ret v np1, [i]⟩ ∧
      np1.clients = np.clients ∧ np1.unhealthy = np.unhealthy ∧ np1 = np :=
  ⟨_, np, BalanceAt_of_canceled sel up np i c e hmu hr he hc, rfl, rfl, rfl⟩

/-- Witness of C4: three healthy endpoints, the selected one answers `context.Canceled`. -/
theorem BalanceAt_canceled_state_unchanged_witness :
    ∃ v np1, BalanceAt (fun _ => 1) canceledUpstream triplePool = some ⟨.ret v np1, ["b"]⟩ ∧
      np1.clients = triplePool.clients ∧ np1.unhealthy = triplePool.unhealthy ∧
      np1 = triplePool :=
  BalanceAt_canceled_state_unchanged (fun _ => 1) canceledUpstream triplePool "b" 2
    ⟨"context canceled", true⟩ rfl rfl rfl rfl



theorem mem_of_mem_selectionOrder (sel : GoMap EthClient → Nat) :
    ∀ (n : Nat) (m : GoMap EthClient) (x : String × EthClient),
      x ∈ selectionOrder sel n m → x ∈ m := by
  intro n
  induction n with
  | zero => intro m x h; simp [selectionOrder] at h
  | succ n ih =>
    intro m x h
    cases hr : rangeFirst sel m with
    | none => simp [selectionOrder, hr] at h
    | some e =>
      simp only [selectionOrder, hr, List.mem_cons] at h
      rcases h with h | h
      · exact h ▸ rangeFirst_mem hr
      · exact List.mem_of_mem_filter (ih _ _ h)

theorem nodup_keys_selectionOrder (sel : GoMap EthClient → Nat) :
    ∀ (n : Nat) (m : GoMap EthClient), ((selectionOrder sel n m).map Prod.fst).Nodup := by
  intro n
  induction n with
  | zero => intro m; simp [selectionOrder]
  | succ n ih =>
    intro m
    cases hr : rangeFirst sel m with
    | none => simp [selectionOrder, hr]
    | some e =>
      simp only [selectionOrder, hr, List.map_cons, List.nodup_cons]
      refine ⟨?_, ih _⟩
      intro hmem
      obtain ⟨x, hx, hxe⟩ := List.mem_map.1 hmem
      have hx1 : x.1 ∈ (m.delete e.1).keys :=
        GoMap.mem_keys_of_mem (mem_of_mem_selectionOrder sel n _ x hx)
      rw [GoMap.mem_keys_delete] at hx1
      exact hx1.2 hxe

theorem length_delete_of_nodup {β : Type} :
    ∀ {m : GoMap β} {k : String}, (GoMap.keys m).Nodup → k ∈ GoMap.keys m →
      (GoMap.delete m k).length + 1 = List.length m := by
  intro m
  induction m with
  | nil => intro k _ h; simp [GoMap.keys] at h
  | cons e m ih =>
    intro k hn h
    simp only [GoMap.keys, List.map_cons, List.nodup_cons] at hn
    by_cases hk : e.1 = k
    · have hnot : k ∉ GoMap.keys m := hk ▸ hn.1
      have hall : ∀ x ∈ m, decide (x.1 ≠ k) = true := by
        intro x hx
        have : x.1 ≠ k := fun hxk => hnot (hxk ▸ GoMap.mem_keys_of_mem hx)
        simpa using this
      have hfil : List.filter (fun e => decide (e.1 ≠ k)) m = m := List.filter_eq_self.2 hall
      unfold GoMap.delete
      rw [List.filter_cons_of_neg (by simp [hk]), hfil]
      rfl
    · have hk1 : k ∈ GoMap.keys m := by
        simp only [GoMap.keys, List.map_cons, List.mem_cons] at h
        rcases h with h | h
        · exact absurd h.symm hk
        · exact h
      have h2 := ih hn.2 hk1
      unfold GoMap.delete at h2 ⊢
      rw [List.filter_cons_of_pos (by simpa using hk)]
      simp only [List.length_cons]
      omega

theorem length_selectionOrder (sel : GoMap EthClient → Nat) :
    ∀ (n : Nat) (m : GoMap EthClient), m.keys.Nodup → m.length ≤ n →
      (selectionOrder sel n m).length = m.length := by
  intro n
  induction n with
  | zero =>
    intro m _ h
    have : m = [] := List.length_eq_zero.1 (Nat.le_zero.1 h)
    simp [selectionOrder, this]
  | succ n ih =>
    intro m hn hlen
    cases hr : rangeFirst sel m with
    | none =>
      have : m = [] := (rangeFirst_eq_none_iff sel m).1 hr
      simp only [selectionOrder, hr]
      simp [this]
    | some e =>
      have hd := length_delete_of_nodup hn (GoMap.mem_keys_of_mem (rangeFirst_mem hr))
      simp only [selectionOrder, hr, List.length_cons]
      rw [ih _ (GoMap.nodup_keys_delete e.1 hn) (by omega)]
      exact hd

theorem demoteAll_mu (l : List (String × EthClient)) :
    ∀ np : NodeProxy, (demoteAll np l).mu = np.mu := by
  induction l with
  | nil => intro np; rfl
  | cons e l ih => intro np; simp only [demoteAll, List.foldl_cons] at ih ⊢; rw [ih]

theorem demoteAll_get?_of_not_mem (l : List (String × EthClient)) :
    ∀ (np : NodeProxy) (k : String), k ∉ l.map Prod.fst →
      (demoteAll np l).clients.get? k = np.clients.get? k ∧
      (demoteAll np l).unhealthy.get? k = np.unhealthy.get? k := by
  induction l with
  | nil => intro np k _; exact ⟨rfl, rfl⟩
  | cons e l ih =>
    intro np k hk
    simp only [List.map_cons, List.mem_cons, not_or] at hk
    have h := ih { np with clients := np.clients.delete e.1,
                           unhealthy := np.unhealthy.set e.1 e.2 } k hk.2
    simp only [demoteAll, List.foldl_cons] at h ⊢
    rw [h.1, h.2, GoMap.get?_delete_ne _ hk.1, GoMap.get?_set_ne _ _ hk.1]
    exact ⟨rfl, rfl⟩

theorem demoteAll_get?_of_mem (l : List (String × EthClient)) :
    ∀ (np : NodeProxy), (l.map Prod.fst).Nodup → ∀ e ∈ l,
      (demoteAll np l).clients.get? e.1 = none ∧
      (demoteAll np l).unhealthy.get? e.1 = some e.2 := by
  induction l with
  | nil => intro np _ e he; cases he
  | cons x l ih =>
    intro np hn e he
    simp only [List.map_cons, List.nodup_cons] at hn
    rcases List.mem_cons.1 he with h | h
    · subst h
      have h := demoteAll_get?_of_not_mem l
        { np with clients := np.clients.delete e.1, unhealthy := np.unhealthy.set e.1 e.2 }
        e.1 hn.1
      simp only [demoteAll, List.foldl_cons] at h ⊢
      rw [h.1, h.2, GoMap.get?_delete_self, GoMap.get?_set_self]
      exact ⟨rfl, rfl⟩
    · have h := ih { np with clients := np.clients.delete x.1,
                             unhealthy := np.unhealthy.set x.1 x.2 } hn.2 e h
      simpa only [demoteAll, List.foldl_cons] using h

theorem BalanceAtFuel_failover (sel : GoMap EthClient → Nat) (up : Upstream) (v : Option Int) :
    ∀ (K n fuel : Nat) (np : NodeProxy) (g : String × EthClient), np.mu = RWMutex.free →
      K < fuel →
      (∀ e ∈ (selectionOrder sel n np.clients).take K, isFault (up.BalanceAt e.1 e.2).2 = true) →
      (selectionOrder sel n np.clients)[K]? = some g → up.BalanceAt g.1 g.2 = (v, none) →
      BalanceAtFuel sel up fuel np =
        some ⟨.ret (v, none) (demoteAll np ((selectionOrder sel n np.clients).take K)),
              ((selectionOrder sel n np.clients).take (K + 1)).map Prod.fst⟩ := by
  intro K
  induction K with
  | zero =>
    intro n fuel np g hmu hfuel _ hg hv
    obtain ⟨fuel, rfl⟩ : ∃ f, fuel = f + 1 := ⟨fuel - 1, by omega⟩
    cases n with
    | zero => simp [selectionOrder] at hg
    | succ n =>
      cases hr : rangeFirst sel np.clients with
      | none => simp [selectionOrder, hr] at hg
      | some e =>
        simp only [selectionOrder, hr, List.getElem?_cons_zero, Option.some.injEq] at hg
        subst hg
        have hf : isFault (up.BalanceAt e.1 e.2).2 = false := by rw [hv]; rfl
        rw [BalanceAtFuel_succ_ok sel up fuel np e.1 e.2 hmu hr hf, hv]
        simp [selectionOrder, hr, demoteAll]
  | succ K ih =>
    intro n fuel np g hmu hfuel hfail hg hv
    obtain ⟨fuel, rfl⟩ : ∃ f, fuel = f + 1 := ⟨fuel - 1, by omega⟩
    cases n with
    | zero => simp [selectionOrder] at hg
    | succ n =>
      cases hr : rangeFirst sel np.clients with
      | none => simp [selectionOrder, hr] at hg
      | some e =>
        simp only [selectionOrder, hr, List.getElem?_cons_succ] at hg
        simp only [selectionOrder, hr, List.take_succ_cons, List.mem_cons, forall_eq_or_imp]
          at hfail
        rw [BalanceAtFuel_succ_fault sel up fuel np e.1 e.2 hmu hr hfail.1]
        rw [ih n fuel { np with clients := np.clients.delete e.1,
                                unhealthy := np.unhealthy.set e.1 e.2 } g hmu (by omega)
              hfail.2 hg hv]
        simp [selectionOrder, hr, demoteAll]



/-- C2 (failover bound): in a pool with `N` healthy endpoints and `K < N`, when the first
`K` endpoints handed out by `getClient` each fail with an error that is not
`context.Canceled` and the next one answers `(v, nil)`, `BalanceAt` returns `(v, nil)`
after `K + 1` upstream balance queries (`K` retries), made to exactly these endpoints in
this order; afterwards these `K` distinct endpoints are in the unhealthy map with their
handles and no longer in the healthy map, and every other id has the entries it had in
both maps. -/
theorem BalanceAt_failover (sel : GoMap EthClient → Nat) (up : Upstream) (np : NodeProxy)
    (K : Nat) (v : Option Int)
    (hmu : np.mu = RWMutex.free) (hn : np.clients.keys.Nodup) (hK : K < np.clients.length)
    (hfail : ∀ e ∈ (demotionOrder sel np.clients).take K,
      isFault (up.BalanceAt e.1 e.2).2 = true)
    (hgood : ∀ g, (demotionOrder sel np.clients)[K]? = some g →
      up.BalanceAt g.1 g.2 = (v, none)) :
    ∃ np1 q, BalanceAt sel up np = some ⟨.ret (v, none) np1, q⟩ ∧
      q = ((demotionOrder sel np.clients).take (K + 1)).map Prod.fst ∧
      q.length = K + 1 ∧
      ((demotionOrder sel np.clients).take K).length = K ∧
      (((demotionOrder sel np.clients).take K).map Prod.fst).Nodup ∧
      (∀ e ∈ (demotionOrder sel np.clients).take K,
        np.clients.get? e.1 = some e.2 ∧ np1.clients.get? e.1 = none ∧
          np1.unhealthy.get? e.1 = some e.2) ∧
      (∀ k, k ∉ ((demotionOrder sel np.clients).take K).map Prod.fst →
        np1.clients.get? k = np.clients.get? k ∧
          np1.unhealthy.get? k = np.unhealthy.get? k) := by
  have hlen : (demotionOrder sel np.clients).length = np.clients.length :=
    length_selectionOrder sel _ _ hn (Nat.le_refl _)
  have hKlen : K < (demotionOrder sel np.clients).length := by omega
  have hg : (demotionOrder sel np.clients)[K]? = some ((demotionOrder sel np.clients)[K]) :=
    List.getElem?_eq_getElem hKlen
  have hnd : (((demotionOrder sel np.clients).take K).map Prod.fst).Nodup := by
    exact (nodup_keys_selectionOrder sel _ _).sublist
      ((List.take_sublist _ _).map Prod.fst)
  refine ⟨demoteAll np ((demotionOrder sel np.clients).take K), _,
    BalanceAtFuel_failover sel up v K _ _ np _ hmu (by omega) hfail hg (hgood _ hg),
    rfl, ?_, ?_, hnd, ?_, ?_⟩
  · rw [List.length_map, List.length_take]
    exact Nat.min_eq_left (by unfold demotionOrder at hKlen; omega)
  · rw [List.length_take]
    exact Nat.min_eq_left (by omega)
  · intro e he
    have hmem : e ∈ np.clients :=
      mem_of_mem_selectionOrder sel _ _ e (List.mem_of_mem_take he)
    have h := demoteAll_get?_of_mem _ np hnd e he
    exact ⟨GoMap.get?_of_mem_of_nodup hn hmem, h.1, h.2⟩
  · intro k hk
    exact demoteAll_get?_of_not_mem _ np k hk

/-- Witness of C2: three healthy endpoints, `getClient` hands out "a" first, which fails,
and then "b", which answers 10. -/
theorem BalanceAt_failover_witness :
    ∃ np1 q, BalanceAt (fun _ => 0) oneGoodUpstream triplePool =
        some ⟨.ret (some 10, none) np1, q⟩ ∧
      q = ((demotionOrder (fun _ => 0) triplePool.clients).take (1 + 1)).map Prod.fst ∧
      q.length = 1 + 1 ∧
      ((demotionOrder (fun _ => 0) triplePool.clients).take 1).length = 1 ∧
      (((demotionOrder (fun _ => 0) triplePool.clients).take 1).map Prod.fst).Nodup ∧
      (∀ e ∈ (demotionOrder (fun _ => 0) triplePool.clients).take 1,
        triplePool.clients.get? e.1 = some e.2 ∧ np1.clients.get? e.1 = none ∧
          np1.unhealthy.get? e.1 = some e.2) ∧
      (∀ k, k ∉ ((demotionOrder (fun _ => 0) triplePool.clients).take 1).map Prod.fst →
        np1.clients.get? k = triplePool.clients.get? k ∧
          np1.unhealthy.get? k = triplePool.unhealthy.get? k) :=
  BalanceAt_failover (fun _ => 0) oneGoodUpstream triplePool 1 (some 10) rfl (by decide)
    (by decide)
    (by
      intro e he
      have h : e = ("a", 1) := by simpa [demotionOrder, selectionOrder, rangeFirst, triplePool] using he
      subst h
      rfl)
    (by
      intro g hg
      have h : g = ("b", 2) := by
        simpa [demotionOrder, selectionOrder, rangeFirst, triplePool, GoMap.delete] using hg.symm
      subst h
      rfl)



/-! ## Recovery probe: `checkUnhealthy` -/

/-- C5 (code defect): the probe condition is inverted.  On the pool of the test
`TestNodeProxy_SetHealthy` (endpoint "a" unhealthy), a tick on which "a" answers `(0, nil)`
leaves "a" in the unhealthy map and out of the healthy map, while a tick on which "a"
fails moves it to the healthy map; and `AddClient` of "a", `setUnhealthy` of "a" and a
tick on which "a" answers successfully leave "a" unhealthy. -/
theorem checkUnhealthy_promotes_on_error_only :
    checkUnhealthy answeringUpstream demotedPool = .ret () demotedPool ∧
    demotedPool.unhealthy.get? "a" = some 1 ∧ demotedPool.clients.get? "a" = none ∧
    checkUnhealthy unreachableUpstream demotedPool =
      .ret () { clients := [("a", 1)], unhealthy := [], mu := RWMutex.free, clientCount := 0 } ∧
    (reachedBy [.addClient "a" 1, .demote "a" 1, .probeTick answeringUpstream]).np =
      { clients := [], unhealthy := [("a", 1)], mu := RWMutex.free, clientCount := 1 } := by
  decide

/-! ## Height consensus: `BlockNumber` -/

/-- C6 (code defect): with the healthy endpoints "a" at height 100 and "b" at height 105
(difference 5, above `maxBlockDiff = 3`), `BlockNumber` returns `(105, nil)` and leaves
the pool as it was: "a" is still in the healthy map and not in the unhealthy map.  The
variable `lowest` follows the largest height, as `highest` does, so their difference is 0. -/
theorem BlockNumber_lagging_endpoint_not_demoted :
    BlockNumber (heightsUpstream 105 0) pairPool = .ret (105, none) pairPool ∧
    pairPool.clients.get? "a" = some 1 ∧ pairPool.unhealthy.get? "a" = none ∧
    (scanClients (heightsUpstream 105 0) pairPool.clients).lowest = 105 := by
  decide



theorem uint64Sub_self (a : Nat) : uint64Sub a a = 0 := by
  unfold uint64Sub
  have h : (2 : Nat) ^ 64 = 18446744073709551616 := by norm_num
  rw [h]
  omega

theorem scanStep_of_not_fault (up : Upstream) (st : Scan) (e : String × EthClient)
    (hf : isFault (up.BlockNumber e.1 e.2).2 = false) (heq : st.lowest = st.highest) :
    (scanStep up st e).unhealthy = st.unhealthy ∧ (scanStep up st e).errStr = st.errStr ∧
      (scanStep up st e).lowest = (scanStep up st e).highest ∧
      (scanStep up st e).highest = max st.highest (heightOf up e) := by
  have hstep : scanStep up st e = st.sample e.1 (up.BlockNumber e.1 e.2).1 := by
    cases herr : (up.BlockNumber e.1 e.2).2 with
    | none => simp only [scanStep, herr]
    | some er =>
      have hc : er.isCanceled = true := by simpa [herr, isFault] using hf
      simp [scanStep, herr, hc]
  rw [hstep]
  refine ⟨rfl, rfl, ?_, ?_⟩
  · simp only [Scan.sample, heq]
  · simp only [Scan.sample, heightOf]
    by_cases h : (up.BlockNumber e.1 e.2).1 > st.highest
    · rw [if_pos h]; omega
    · rw [if_neg h]; omega

theorem scan_of_no_fault (up : Upstream) :
    ∀ (cl : GoMap EthClient) (st : Scan),
      (∀ e ∈ cl, isFault (up.BlockNumber e.1 e.2).2 = false) → st.lowest = st.highest →
      (cl.foldl (scanStep up) st).unhealthy = st.unhealthy ∧
      (cl.foldl (scanStep up) st).errStr = st.errStr ∧
      (cl.foldl (scanStep up) st).lowest = (cl.foldl (scanStep up) st).highest ∧
      (cl.foldl (scanStep up) st).highest =
        cl.foldl (fun a e => max a (heightOf up e)) st.highest := by
  intro cl
  induction cl with
  | nil => intro st _ heq; exact ⟨rfl, rfl, heq, rfl⟩
  | cons e cl ih =>
    intro st hf heq
    obtain ⟨h1, h2, h3, h4⟩ := scanStep_of_not_fault up st e (hf e (List.mem_cons_self _ _)) heq
    obtain ⟨k1, k2, k3, k4⟩ := ih (scanStep up st e)
      (fun x hx => hf x (List.mem_cons_of_mem _ hx)) h3
    simp only [List.foldl_cons]
    exact ⟨k1.trans h1, k2.trans h2, k3, by rw [k4, h4]⟩

theorem scanClients_lowest_eq_highest_of_no_fault (up : Upstream) (cl : GoMap EthClient)
    (hf : ∀ e ∈ cl, isFault (up.BlockNumber e.1 e.2).2 = false) :
    lagCheck cl (scanClients up cl) = scanClients up cl ∧
      (scanClients up cl).unhealthy = [] ∧ (scanClients up cl).errStr = [] ∧
      (scanClients up cl).highest = maxHeight up cl := by
  obtain ⟨h1, h2, h3, h4⟩ := scan_of_no_fault up cl ⟨[], [], 0, 0, []⟩ hf rfl
  refine ⟨?_, h1, h2, h4⟩
  unfold lagCheck
  have h3a : (scanClients up cl).lowest = (scanClients up cl).highest := h3
  rw [h3a, uint64Sub_self, if_neg (by decide)]

theorem BlockNumber_of_no_fault (up : Upstream) (np : NodeProxy) (hmu : np.mu = RWMutex.free)
    (hf : ∀ e ∈ np.clients, isFault (up.BlockNumber e.1 e.2).2 = false) :
    BlockNumber up np =
      .ret (maxHeight up np.clients,
        if np.unhealthy = [] then none
        else some (np.unhealthy.map (fun e => unhealthyMsg e.1))) np := by
  obtain ⟨cl, un, mu, n⟩ := np
  simp only at hmu hf
  subst hmu
  obtain ⟨h1, h2, h3, h4⟩ := scanClients_lowest_eq_highest_of_no_fault up cl hf
  unfold BlockNumber
  simp only [RWMutex.RLock, RWMutex.free, Bool.false_eq_true, if_false]
  rw [h1, h2, h3, h4]
  cases un with
  | nil => rfl
  | cons x un => simp [setUnhealthyAll, RWMutex.RUnlock]

theorem le_foldl_max (up : Upstream) :
    ∀ (cl : GoMap EthClient) (a : Nat),
      a ≤ cl.foldl (fun a e => max a (heightOf up e)) a ∧
      (∀ e ∈ cl, heightOf up e ≤ cl.foldl (fun a e => max a (heightOf up e)) a) ∧
      (cl.foldl (fun a e => max a (heightOf up e)) a = a ∨
        ∃ e ∈ cl, heightOf up e = cl.foldl (fun a e => max a (heightOf up e)) a) := by
  intro cl
  induction cl with
  | nil => intro a; simp
  | cons x cl ih =>
    intro a
    obtain ⟨h1, h2, h3⟩ := ih (max a (heightOf up x))
    simp only [List.foldl_cons, List.mem_cons, forall_eq_or_imp, exists_eq_or_imp]
    refine ⟨by omega, ⟨by omega, h2⟩, ?_⟩
    rcases h3 with h3 | ⟨e, he, h3⟩
    · rw [h3]
      by_cases hax : heightOf up x ≤ a
      · left; omega
      · right; left; omega
    · right; right; exact ⟨e, he, h3⟩

/-- C7 (within tolerance): in a pool with an empty unhealthy map whose healthy endpoints
all answer the height query successfully, with heights that differ by at most
`maxBlockDiff = 3`, `BlockNumber` returns a nil error and the largest reported height
(0 when there is no healthy endpoint) and leaves the pool, both maps in particular, as it
was. -/
theorem BlockNumber_within_tolerance (up : Upstream) (np : NodeProxy)
    (hmu : np.mu = RWMutex.free) (hun : np.unhealthy = [])
    (hok : ∀ e ∈ np.clients, (up.BlockNumber e.1 e.2).2 = none)
    (_htol : ∀ e1 ∈ np.clients, ∀ e2 ∈ np.clients, heightOf up e1 ≤ heightOf up e2 + maxBlockDiff) :
    ∃ h np1, BlockNumber up np = .ret (h, none) np1 ∧
      np1.clients = np.clients ∧ np1.unhealthy = np.unhealthy ∧ np1 = np ∧
      (∀ e ∈ np.clients, heightOf up e ≤ h) ∧
      (np.clients ≠ [] → ∃ e ∈ np.clients, heightOf up e = h) ∧
      (np.clients = [] → h = 0) := by
  have hrun := BlockNumber_of_no_fault up np hmu (fun e he => by rw [hok e he]; rfl)
  rw [if_pos hun] at hrun
  obtain ⟨_, h2, h3⟩ := le_foldl_max up np.clients 0
  refine ⟨maxHeight up np.clients, np, hrun, rfl, rfl, rfl, h2, ?_, ?_⟩
  · intro hne
    rcases h3 with h3 | h3
    · obtain ⟨x, hx⟩ := List.exists_mem_of_ne_nil _ hne
      refine ⟨x, hx, ?_⟩
      have := h2 x hx
      unfold maxHeight
      omega
    · exact h3
  · intro hnil
    simp [maxHeight, hnil]



/-- Witness of C7: the healthy endpoints "a", "b" and "c" report the heights 100, 101 and
102; `BlockNumber` returns `(102, nil)` and demotes no endpoint. -/
theorem BlockNumber_within_tolerance_witness :
    BlockNumber (heightsUpstream 101 102) triplePool = .ret (102, none) triplePool ∧
    ∃ h np1, BlockNumber (heightsUpstream 101 102) triplePool = .ret (h, none) np1 ∧
      np1.clients = triplePool.clients ∧ np1.unhealthy = triplePool.unhealthy ∧
      np1 = triplePool ∧
      (∀ e ∈ triplePool.clients, heightOf (heightsUpstream 101 102) e ≤ h) ∧
      (triplePool.clients ≠ [] →
        ∃ e ∈ triplePool.clients, heightOf (heightsUpstream 101 102) e = h) ∧
      (triplePool.clients = [] → h = 0) :=
  ⟨by decide,
   BlockNumber_within_tolerance (heightsUpstream 101 102) triplePool rfl rfl
    (by decide) (by decide)⟩

/-- C9, as stated, fails: in the pool without any endpoint, and in the pool whose single
healthy endpoint answers the height query with `context.Canceled`, no healthy endpoint
answers successfully, and `BlockNumber` returns height 0 with a nil error. -/
theorem BlockNumber_no_responder_nil_error :
    (∀ e ∈ NewNodeProxy.clients, (canceledUpstream.BlockNumber e.1 e.2).2 ≠ none) ∧
    BlockNumber canceledUpstream NewNodeProxy = .ret (0, none) NewNodeProxy ∧
    (∀ e ∈ singlePool.clients, (canceledUpstream.BlockNumber e.1 e.2).2 ≠ none) ∧
    BlockNumber canceledUpstream singlePool = .ret (0, none) singlePool := by
  decide

/-- C9, amended: in a pool in which every healthy endpoint, if there is any, answers the
height query with `(0, context.Canceled)`, `BlockNumber` returns height 0 and leaves the
pool as it was; when the unhealthy map is not empty the returned error is non-nil and
its message list is non-empty, with as many messages as the unhealthy map has entries,
and when the unhealthy map is empty the returned error is nil. -/
theorem BlockNumber_no_responder_degraded (up : Upstream) (np : NodeProxy)
    (hmu : np.mu = RWMutex.free)
    (hcl : ∀ e ∈ np.clients, ∃ er, up.BlockNumber e.1 e.2 = (0, some er) ∧ er.isCanceled = true) :
    (np.unhealthy ≠ [] →
      ∃ msgs, BlockNumber up np = .ret (0, some msgs) np ∧ msgs ≠ [] ∧
        msgs.length = np.unhealthy.length) ∧
    (np.unhealthy = [] → BlockNumber up np = .ret (0, none) np) := by
  have hf : ∀ e ∈ np.clients, isFault (up.BlockNumber e.1 e.2).2 = false := by
    intro e he
    obtain ⟨er, h1, h2⟩ := hcl e he
    simp [h1, isFault, h2]
  have hmax : maxHeight up np.clients = 0 := by
    obtain ⟨_, h2, h3⟩ := le_foldl_max up np.clients 0
    rcases h3 with h3 | ⟨e, he, h3⟩
    · exact h3
    · obtain ⟨er, h1, _⟩ := hcl e he
      unfold maxHeight
      rw [← h3, heightOf, h1]
  have hrun := BlockNumber_of_no_fault up np hmu hf
  rw [hmax] at hrun
  constructor
  · intro hun
    rw [if_neg hun] at hrun
    exact ⟨_, hrun, by simpa using hun, List.length_map _ _⟩
  · intro hun
    rw [if_pos hun] at hrun
    exact hrun

/-- Witness of C9, amended: in `mixedPool` the healthy endpoint "a" answers
`(0, context.Canceled)` and "b" is unhealthy, the result is height 0 with a non-nil error
of one message; in `singlePool` the healthy endpoint answers `(0, context.Canceled)` and
no endpoint is unhealthy, the result is height 0 with a nil error. -/
theorem BlockNumber_no_responder_degraded_witness :
    (∀ e ∈ mixedPool.clients,
      ∃ er, canceledUpstream.BlockNumber e.1 e.2 = (0, some er) ∧ er.isCanceled = true) ∧
    mixedPool.clients ≠ [] ∧ mixedPool.unhealthy ≠ [] ∧
    (∃ msgs, BlockNumber canceledUpstream mixedPool = .ret (0, some msgs) mixedPool ∧
      msgs ≠ [] ∧ msgs.length = mixedPool.unhealthy.length) ∧
    singlePool.clients ≠ [] ∧ singlePool.unhealthy = [] ∧
    BlockNumber canceledUpstream singlePool = .ret (0, none) singlePool :=
  have h1 : ∀ e ∈ mixedPool.clients,
      ∃ er, canceledUpstream.BlockNumber e.1 e.2 = (0, some er) ∧ er.isCanceled = true :=
    fun _ _ => ⟨⟨"context canceled", true⟩, rfl, rfl⟩
  have h2 : ∀ e ∈ singlePool.clients,
      ∃ er, canceledUpstream.BlockNumber e.1 e.2 = (0, some er) ∧ er.isCanceled = true :=
    fun _ _ => ⟨⟨"context canceled", true⟩, rfl, rfl⟩
  ⟨h1, by decide, by decide,
    (BlockNumber_no_responder_degraded canceledUpstream mixedPool rfl h1).1 (by decide),
    by decide, rfl,
    (BlockNumber_no_responder_degraded canceledUpstream singlePool rfl h2).2 rfl⟩

/-! ## Pool operations: `AddClient` -/

/-- C10, as stated, fails: `AddClient` of the id "fail.com", already healthy with handle 1,
returns and replaces the handle by 7; `AddClient` of the id "a", already unhealthy,
returns and inserts "a" into the healthy map. -/
theorem AddClient_duplicate_not_rejected :
    singlePool.clients.get? "fail.com" = some 1 ∧
    AddClient singlePool "fail.com" 7 =
      .ret () { clients := [("fail.com", 7)], unhealthy := [], mu := RWMutex.free,
                clientCount := 2 } ∧
    demotedPool.unhealthy.get? "a" = some 1 ∧
    AddClient demotedPool "a" 1 =
      .ret () { clients := [("a", 1)], unhealthy := [("a", 1)], mu := RWMutex.free,
                clientCount := 1 } := by
  decide

theorem AddClient_of_free (np : NodeProxy) (url : String) (client : EthClient)
    (hmu : np.mu = RWMutex.free) :
    AddClient np url client =
      .ret () { np with clients := np.clients.set url client
                        clientCount := np.clientCount + 1 } := by
  obtain ⟨cl, un, mu, n⟩ := np
  simp only at hmu
  subst hmu
  simp [AddClient, RWMutex.Lock, RWMutex.Unlock, RWMutex.free]

/-- C10, amended: `AddClient` has no error result and performs no duplicate check.  For
an id that is already a key of the healthy or of the unhealthy map, `AddClient(id, handle)`
returns, the healthy map then maps id to the new handle and is unchanged at every other
id, the unhealthy map is unchanged (an id that was unhealthy is then a key of both maps),
and `clientCount` is incremented. -/
theorem AddClient_duplicate_overwrites (np : NodeProxy) (url : String) (client : EthClient)
    (hmu : np.mu = RWMutex.free)
    (_hdup : url ∈ np.clients.keys ∨ url ∈ np.unhealthy.keys) :
    ∃ np1, AddClient np url client = .ret () np1 ∧
      np1.clients.get? url = some client ∧
      (∀ k, k ≠ url → np1.clients.get? k = np.clients.get? k) ∧
      np1.unhealthy = np.unhealthy ∧
      (url ∈ np.unhealthy.keys → url ∈ np1.clients.keys ∧ url ∈ np1.unhealthy.keys) ∧
      np1.clientCount = np.clientCount + 1 := by
  refine ⟨_, AddClient_of_free np url client hmu, GoMap.get?_set_self _ _ _,
    fun k hk => GoMap.get?_set_ne _ _ hk, rfl, fun h => ⟨?_, h⟩, rfl⟩
  exact (GoMap.mem_keys_set _ _ _ _).2 (Or.inr rfl)

/-- Witness of C10, amended: `AddClient` of the unhealthy id "a". -/
theorem AddClient_duplicate_overwrites_witness :
    ∃ np1, AddClient demotedPool "a" 5 = .ret () np1 ∧
      np1.clients.get? "a" = some 5 ∧
      (∀ k, k ≠ "a" → np1.clients.get? k = demotedPool.clients.get? k) ∧
      np1.unhealthy = demotedPool.unhealthy ∧
      ("a" ∈ demotedPool.unhealthy.keys → "a" ∈ np1.clients.keys ∧ "a" ∈ np1.unhealthy.keys) ∧
      np1.clientCount = demotedPool.clientCount + 1 :=
  AddClient_duplicate_overwrites demotedPool "a" 5 rfl (Or.inr (by decide))



/-! ## The partition of the ids over the two maps -/

theorem Moves.refl (np : NodeProxy) : Moves np np := ⟨fun _ h => h, fun h => h⟩

theorem Moves.trans {a b c : NodeProxy} (h1 : Moves a b) (h2 : Moves b c) : Moves a c :=
  ⟨fun k h => h2.1 k (h1.1 k h), fun h => h2.2 (h1.2 h)⟩

theorem Moves.of_maps_eq {np np1 : NodeProxy} (h1 : np1.clients = np.clients)
    (h2 : np1.unhealthy = np.unhealthy) : Moves np np1 := by
  unfold Moves KeysDisjoint
  rw [h1, h2]
  exact ⟨fun _ h => h, fun h => h⟩

theorem Moves.demote (np : NodeProxy) (i : String) (c : EthClient) (mu : RWMutex) (n : Int) :
    Moves np { clients := np.clients.delete i, unhealthy := np.unhealthy.set i c,
               mu := mu, clientCount := n } := by
  constructor
  · intro k hk
    by_cases hki : k = i
    · exact Or.inr ((GoMap.mem_keys_set _ _ _ _).2 (Or.inr hki))
    · rcases hk with hk | hk
      · exact Or.inl ((GoMap.mem_keys_delete _ _ _).2 ⟨hk, hki⟩)
      · exact Or.inr ((GoMap.mem_keys_set _ _ _ _).2 (Or.inl hk))
  · intro hd k hk hk2
    simp only at hk hk2
    rw [GoMap.mem_keys_delete] at hk
    rw [GoMap.mem_keys_set] at hk2
    rcases hk2 with hk2 | hk2
    · exact hd k hk.1 hk2
    · exact hk.2 hk2

theorem moves_setUnhealthy (np : NodeProxy) (i : String) (c : EthClient) :
    Moves np (setUnhealthy np i c).state := by
  unfold setUnhealthy
  cases np.mu.Lock with
  | none => exact Moves.refl np
  | some mu1 => exact Moves.demote np i c _ _

theorem getClient_state (sel : GoMap EthClient → Nat) (np : NodeProxy) :
    (getClient sel np).state.clients = np.clients ∧
      (getClient sel np).state.unhealthy = np.unhealthy := by
  unfold getClient
  cases np.mu.RLock with
  | none => exact ⟨rfl, rfl⟩
  | some mu1 =>
    simp only
    split
    · exact ⟨rfl, rfl⟩
    · split <;> exact ⟨rfl, rfl⟩

theorem moves_BalanceAtFuel (sel : GoMap EthClient → Nat) (up : Upstream) :
    ∀ (fuel : Nat) (np : NodeProxy) (r : Run (Option Int × Option GoError)),
      BalanceAtFuel sel up fuel np = some r → Moves np r.out.state := by
  intro fuel
  induction fuel with
  | zero => intro np r h; simp [BalanceAtFuel] at h
  | succ fuel ih =>
    intro np r h
    have hg := getClient_state sel np
    unfold BalanceAtFuel at h
    cases hgc : getClient sel np with
    | blocked s =>
      rw [hgc] at h hg
      simp only [Option.some.injEq] at h
      subst h
      exact Moves.of_maps_eq hg.1 hg.2
    | ret x np1 =>
      rw [hgc] at h hg
      have h01 : Moves np np1 := Moves.of_maps_eq hg.1 hg.2
      cases x with
      | none =>
        simp only [Option.some.injEq] at h
        subst h
        exact h01
      | some ci =>
        obtain ⟨c, index⟩ := ci
        simp only at h
        by_cases hf : isFault (up.BalanceAt index c).2 = true
        · rw [if_pos hf] at h
          have h12 := moves_setUnhealthy np1 index c
          cases hs : setUnhealthy np1 index c with
          | blocked s =>
            rw [hs] at h h12
            simp only [Option.some.injEq] at h
            subst h
            exact h01.trans h12
          | ret u np2 =>
            rw [hs] at h h12
            simp only [Option.map_eq_some'] at h
            obtain ⟨r0, hr0, hr⟩ := h
            subst hr
            exact (h01.trans h12).trans (ih np2 r0 hr0)
        · rw [if_neg hf] at h
          simp only [Option.some.injEq] at h
          subst h
          exact h01

theorem moves_setUnhealthyAll :
    ∀ (l : List (String × EthClient)) (np : NodeProxy), Moves np (setUnhealthyAll np l).state := by
  intro l
  induction l with
  | nil => intro np; exact Moves.refl np
  | cons e l ih =>
    intro np
    obtain ⟨i, c⟩ := e
    have h1 := moves_setUnhealthy np i c
    unfold setUnhealthyAll
    cases hs : setUnhealthy np i c with
    | blocked s =>
      rw [hs] at h1
      exact h1
    | ret u np1 =>
      rw [hs] at h1
      exact h1.trans (ih np1)

theorem moves_BlockNumber (up : Upstream) (np : NodeProxy) :
    Moves np (BlockNumber up np).state := by
  unfold BlockNumber
  cases np.mu.RLock with
  | none => exact Moves.refl np
  | some mu1 =>
    simp only
    have h1 : Moves np { np with mu := mu1 } := Moves.of_maps_eq rfl rfl
    have h2 := moves_setUnhealthyAll
      (lagCheck np.clients (scanClients up np.clients)).unhealthy { np with mu := mu1 }
    cases hs : setUnhealthyAll { np with mu := mu1 }
        (lagCheck np.clients (scanClients up np.clients)).unhealthy with
    | blocked s =>
      rw [hs] at h2
      exact h1.trans h2
    | ret u np2 =>
      rw [hs] at h2
      have h3 : Moves np2 { np2 with mu := np2.mu.RUnlock } := Moves.of_maps_eq rfl rfl
      simp only
      split <;> exact (h1.trans h2).trans h3



theorem probe_fold (up : Upstream) :
    ∀ (l : GoMap EthClient) (acc : GoMap EthClient × List String) (k : String),
      (k ∈ (l.foldl (probeStep up) acc).1.keys ↔
        k ∈ acc.1.keys ∨ ∃ e ∈ l, ((up.BlockNumber e.1 e.2).2).isSome = true ∧ e.1 = k) ∧
      (k ∈ (l.foldl (probeStep up) acc).2 ↔
        k ∈ acc.2 ∨ ∃ e ∈ l, ((up.BlockNumber e.1 e.2).2).isSome = true ∧ e.1 = k) := by
  intro l
  induction l with
  | nil => intro acc k; simp
  | cons x l ih =>
    intro acc k
    obtain ⟨h1, h2⟩ := ih (probeStep up acc x) k
    simp only [List.foldl_cons, List.mem_cons, exists_eq_or_imp]
    rw [h1, h2]
    by_cases hx : ((up.BlockNumber x.1 x.2).2).isSome = true
    · simp only [probeStep, hx, if_true, GoMap.mem_keys_set, List.mem_append,
        List.mem_singleton, true_and]
      constructor <;> constructor <;> intro h
      · rcases h with (h | h) | h
        · exact Or.inl h
        · exact Or.inr (Or.inl h.symm)
        · exact Or.inr (Or.inr h)
      · rcases h with h | h | h
        · exact Or.inl (Or.inl h)
        · exact Or.inl (Or.inr h.symm)
        · exact Or.inr h
      · rcases h with (h | h) | h
        · exact Or.inl h
        · exact Or.inr (Or.inl h.symm)
        · exact Or.inr (Or.inr h)
      · rcases h with h | h | h
        · exact Or.inl (Or.inl h)
        · exact Or.inl (Or.inr h.symm)
        · exact Or.inr h
    · simp [probeStep, hx]

theorem mem_keys_deleteKeys (ids : List String) :
    ∀ (m : GoMap EthClient) (k : String),
      k ∈ (deleteKeys m ids).keys ↔ k ∈ m.keys ∧ k ∉ ids := by
  induction ids with
  | nil => intro m k; simp [deleteKeys]
  | cons i ids ih =>
    intro m k
    have h := ih (m.delete i) k
    simp only [deleteKeys, List.foldl_cons] at h ⊢
    rw [h, GoMap.mem_keys_delete, List.mem_cons, not_or]
    tauto

theorem moves_checkUnhealthy (up : Upstream) (np : NodeProxy) :
    Moves np (checkUnhealthy up np).state := by
  unfold checkUnhealthy
  cases np.mu.Lock with
  | none => exact Moves.refl np
  | some mu1 =>
    simp only
    split
    · exact Moves.of_maps_eq rfl rfl
    · have hp := fun k => probe_fold up np.unhealthy (np.clients, []) k
      have hd := fun k => mem_keys_deleteKeys
        (np.unhealthy.foldl (probeStep up) (np.clients, [])).2 np.unhealthy k
      simp only [List.not_mem_nil, false_or] at hp
      constructor
      · intro k hk
        simp only [Outcome.state]
        by_cases hin : k ∈ (np.unhealthy.foldl (probeStep up) (np.clients, [])).2
        · exact Or.inl (((hp k).1).2 (Or.inr (((hp k).2).1 hin)))
        · rcases hk with hk | hk
          · exact Or.inl (((hp k).1).2 (Or.inl hk))
          · exact Or.inr ((hd k).2 ⟨hk, hin⟩)
      · intro hdis k hk hk2
        simp only [Outcome.state] at hk hk2
        rw [hd k] at hk2
        rcases ((hp k).1).1 hk with h | h
        · exact hdis k h hk2.1
        · exact hk2.2 (((hp k).2).2 h)

theorem moves_exec_of_not_add (t : History) (c : Call)
    (hc : ∀ url client, c ≠ .addClient url client) :
    Moves t.np (c.exec t).np ∧ (c.exec t).added = t.added := by
  cases c with
  | addClient url client => exact absurd rfl (hc url client)
  | demote index client => exact ⟨moves_setUnhealthy _ _ _, rfl⟩
  | probeTick up => exact ⟨moves_checkUnhealthy _ _, rfl⟩
  | balanceAt sel up =>
    simp only [Call.exec]
    cases hb : BalanceAt sel up t.np with
    | none => exact ⟨Moves.refl _, rfl⟩
    | some r => exact ⟨moves_BalanceAtFuel sel up _ _ r hb, rfl⟩
  | blockNumber up => exact ⟨moves_BlockNumber _ _, rfl⟩



theorem covered_exec (t : History) (c : Call) (h : Covered t) : Covered (c.exec t) := by
  by_cases hc : ∀ url client, c ≠ .addClient url client
  · obtain ⟨hm, ha⟩ := moves_exec_of_not_add t c hc
    intro id hid
    rw [ha] at hid
    exact hm.1 id (h id hid)
  · push_neg at hc
    obtain ⟨url, client, rfl⟩ := hc
    simp only [Call.exec, AddClient]
    cases t.np.mu.Lock with
    | none => exact h
    | some mu1 =>
      intro id hid
      simp only [List.mem_cons] at hid
      simp only [GoMap.mem_keys_set]
      rcases hid with hid | hid
      · exact Or.inl (Or.inr hid)
      · rcases h id hid with h1 | h1
        · exact Or.inl (Or.inl h1)
        · exact Or.inr h1

theorem disjoint_exec (t : History) (c : Call) (h : KeysDisjoint t.np)
    (hc : match c with
      | .addClient url _ => url ∉ t.np.unhealthy.keys
      | _ => True) : KeysDisjoint (c.exec t).np := by
  cases c with
  | addClient url client =>
    simp only at hc
    simp only [Call.exec, AddClient]
    cases t.np.mu.Lock with
    | none => exact h
    | some mu1 =>
      intro k hk
      simp only [GoMap.mem_keys_set] at hk
      rcases hk with hk | hk
      · exact h k hk
      · rw [hk]
        exact hc
  | demote index client =>
    exact (moves_exec_of_not_add t _ (fun _ _ hx => by cases hx)).1.2 h
  | probeTick up =>
    exact (moves_exec_of_not_add t _ (fun _ _ hx => by cases hx)).1.2 h
  | balanceAt sel up =>
    exact (moves_exec_of_not_add t _ (fun _ _ hx => by cases hx)).1.2 h
  | blockNumber up =>
    exact (moves_exec_of_not_add t _ (fun _ _ hx => by cases hx)).1.2 h

theorem covered_foldl :
    ∀ (calls : List Call) (t : History), Covered t → Covered (calls.foldl Call.exec t) := by
  intro calls
  induction calls with
  | nil => intro t h; exact h
  | cons c cs ih => intro t h; exact ih _ (covered_exec t c h)

theorem disjoint_foldl :
    ∀ (calls : List Call) (t : History), KeysDisjoint t.np → addsAvoidUnhealthy t calls →
      KeysDisjoint (calls.foldl Call.exec t).np := by
  intro calls
  induction calls with
  | nil => intro t h _; exact h
  | cons c cs ih =>
    intro t h ha
    exact ih _ (disjoint_exec t c h ha.1) ha.2

/-- C8, as stated, fails: after `AddClient("a")`, a `BalanceAt` on which "a" fails, and a
second `AddClient("a")`, the added id "a" is a key of both maps. -/
theorem added_id_in_both_maps :
    "a" ∈ (reachedBy readdCalls).added ∧
    "a" ∈ (reachedBy readdCalls).np.clients.keys ∧
    "a" ∈ (reachedBy readdCalls).np.unhealthy.keys := by
  decide

/-- C8, amended: in every state reached from `NewNodeProxy` by a sequence of calls of
`AddClient`, `setUnhealthy`, `checkUnhealthy`, `BalanceAt` and `BlockNumber`, under any
endpoint answers, every id for which `AddClient` has returned is a key of at least one of
the two maps; and it is not a key of both when no call of `AddClient` was made for an id
that was a key of the unhealthy map at the time of the call. -/
theorem added_ids_partitioned (calls : List Call) (id : String)
    (hid : id ∈ (reachedBy calls).added) :
    (id ∈ (reachedBy calls).np.clients.keys ∨ id ∈ (reachedBy calls).np.unhealthy.keys) ∧
    (addsAvoidUnhealthy ⟨NewNodeProxy, []⟩ calls →
      ¬ (id ∈ (reachedBy calls).np.clients.keys ∧
          id ∈ (reachedBy calls).np.unhealthy.keys)) := by
  refine ⟨covered_foldl calls ⟨NewNodeProxy, []⟩ (fun _ h => by cases h) id hid, ?_⟩
  intro ha hboth
  have hd := disjoint_foldl calls ⟨NewNodeProxy, []⟩ (fun _ h => by cases h) ha
  exact hd id hboth.1 hboth.2

/-- Witness of C8, amended: after the calls of `sampleCalls` the added id "a" is a key of
the healthy map only. -/
theorem added_ids_partitioned_witness :
    "a" ∈ (reachedBy sampleCalls).added ∧
    addsAvoidUnhealthy ⟨NewNodeProxy, []⟩ sampleCalls ∧
    ("a" ∈ (reachedBy sampleCalls).np.clients.keys ∨
      "a" ∈ (reachedBy sampleCalls).np.unhealthy.keys) ∧
    ¬ ("a" ∈ (reachedBy sampleCalls).np.clients.keys ∧
        "a" ∈ (reachedBy sampleCalls).np.unhealthy.keys) :=
  have hfresh : addsAvoidUnhealthy ⟨NewNodeProxy, []⟩ sampleCalls := by
    simp only [sampleCalls, addsAvoidUnhealthy, and_true]
    decide
  ⟨by decide, hfresh,
    (added_ids_partitioned sampleCalls "a" (by decide)).1,
    (added_ids_partitioned sampleCalls "a" (by decide)).2 hfresh⟩

/-! ## Pool operations: `setUnhealthy` and `AddClient` on ids -/

theorem delete_of_not_mem_keys {β : Type} :
    ∀ {m : GoMap β} {k : String}, k ∉ GoMap.keys m → GoMap.delete m k = m := by
  intro m k h
  unfold GoMap.delete
  apply List.filter_eq_self.2
  intro e he
  have : e.1 ≠ k := fun hek => h (hek ▸ GoMap.mem_keys_of_mem he)
  simpa using this

theorem delete_delete_self {β : Type} (m : GoMap β) (k : String) :
    GoMap.delete (GoMap.delete m k) k = GoMap.delete m k :=
  delete_of_not_mem_keys (by simp [GoMap.mem_keys_delete])

theorem set_set_self {β : Type} (m : GoMap β) (k : String) (v : β) :
    GoMap.set (GoMap.set m k v) k v = GoMap.set m k v := by
  have h1 : GoMap.delete (GoMap.delete m k ++ [(k, v)]) k = GoMap.delete m k := by
    unfold GoMap.delete
    rw [List.filter_append]
    have h2 : List.filter (fun e => decide (e.1 ≠ k)) [(k, v)] = [] := by simp
    rw [h2, List.append_nil]
    exact delete_delete_self m k
  unfold GoMap.set
  rw [h1]

/-- C11, as stated, fails: `setUnhealthy` of the id "x", a key of neither map of the
empty pool, returns and leaves "x" in the unhealthy map; `setUnhealthy` of the unhealthy
id "a" with another handle replaces the handle of "a". -/
theorem setUnhealthy_unknown_id_inserted :
    "x" ∉ NewNodeProxy.clients.keys ∧ "x" ∉ NewNodeProxy.unhealthy.keys ∧
    setUnhealthy NewNodeProxy "x" 1 =
      .ret () { clients := [], unhealthy := [("x", 1)], mu := RWMutex.free, clientCount := 0 } ∧
    demotedPool.unhealthy.get? "a" = some 1 ∧
    setUnhealthy demotedPool "a" 7 =
      .ret () { clients := [], unhealthy := [("a", 7)], mu := RWMutex.free, clientCount := 0 } := by
  decide

/-- C11, amended: `setUnhealthy` performs no presence check.  For an id that is not a key
of the healthy map, `setUnhealthy(id, handle)` returns and leaves the healthy map
unchanged; the unhealthy map then maps id to the handle and is unchanged at every other
id.  So an id that was a key of neither map becomes a key of the unhealthy map, and an id
that was already unhealthy with this handle leaves every entry of both maps as it was. -/
theorem setUnhealthy_of_not_healthy (np : NodeProxy) (index : String) (client : EthClient)
    (hmu : np.mu = RWMutex.free) (hk : index ∉ np.clients.keys) :
    ∃ np1, setUnhealthy np index client = .ret () np1 ∧
      np1.clients = np.clients ∧
      np1.unhealthy.get? index = some client ∧
      (∀ k, k ≠ index → np1.unhealthy.get? k = np.unhealthy.get? k) ∧
      (index ∉ np.unhealthy.keys → index ∈ np1.unhealthy.keys) ∧
      (np.unhealthy.get? index = some client →
        ∀ k, np1.unhealthy.get? k = np.unhealthy.get? k) := by
  refine ⟨_, setUnhealthy_of_free np index client hmu, delete_of_not_mem_keys hk,
    GoMap.get?_set_self _ _ _, fun k h => GoMap.get?_set_ne _ _ h, ?_, ?_⟩
  · intro _
    exact (GoMap.mem_keys_set _ _ _ _).2 (Or.inr rfl)
  · intro hsame k
    by_cases h : k = index
    · subst h
      exact (GoMap.get?_set_self _ _ _).trans hsame.symm
    · exact GoMap.get?_set_ne _ _ h

/-- Witness of C11, amended: `setUnhealthy` of the unhealthy id "a" of `demotedPool` with
its handle. -/
theorem setUnhealthy_of_not_healthy_witness :
    ∃ np1, setUnhealthy demotedPool "a" 1 = .ret () np1 ∧
      np1.clients = demotedPool.clients ∧
      np1.unhealthy.get? "a" = some 1 ∧
      (∀ k, k ≠ "a" → np1.unhealthy.get? k = demotedPool.unhealthy.get? k) ∧
      ("a" ∉ demotedPool.unhealthy.keys → "a" ∈ np1.unhealthy.keys) ∧
      (demotedPool.unhealthy.get? "a" = some 1 →
        ∀ k, np1.unhealthy.get? k = demotedPool.unhealthy.get? k) :=
  setUnhealthy_of_not_healthy demotedPool "a" 1 rfl (by decide)

/-- C12 (demote is idempotent): `setUnhealthy(id, handle)` returns a state in which a
second `setUnhealthy(id, handle)` returns the same state: the healthy map, the unhealthy
map and the rest of the pool are as after the first call. -/
theorem setUnhealthy_idempotent (np : NodeProxy) (index : String) (client : EthClient)
    (hmu : np.mu = RWMutex.free) :
    ∃ np1, setUnhealthy np index client = .ret () np1 ∧
      setUnhealthy np1 index client = .ret () np1 := by
  refine ⟨_, setUnhealthy_of_free np index client hmu, ?_⟩
  rw [setUnhealthy_of_free
    { np with clients := np.clients.delete index, unhealthy := np.unhealthy.set index client }
    index client hmu]
  simp only [delete_delete_self, set_set_self]

/-- Witness of C12: `setUnhealthy` of the healthy id "a" of `mixedPool`, twice. -/
theorem setUnhealthy_idempotent_witness :
    ∃ np1, setUnhealthy mixedPool "a" 1 = .ret () np1 ∧
      setUnhealthy np1 "a" 1 = .ret () np1 :=
  setUnhealthy_idempotent mixedPool "a" 1 rfl

/-- C13 (demote moves the entry): for an id that is healthy with handle `h`, after
`setUnhealthy(id, h)` the unhealthy map maps id to `h`, the healthy map has no entry for
id, and the entries of every other id in both maps are unchanged. -/
theorem setUnhealthy_moves_entry (np : NodeProxy) (index : String) (h : EthClient)
    (hmu : np.mu = RWMutex.free) (_hh : np.clients.get? index = some h) :
    ∃ np1, setUnhealthy np index h = .ret () np1 ∧
      np1.unhealthy.get? index = some h ∧
      np1.clients.get? index = none ∧
      index ∉ np1.clients.keys ∧
      (∀ k, k ≠ index → np1.clients.get? k = np.clients.get? k ∧
        np1.unhealthy.get? k = np.unhealthy.get? k) :=
  ⟨_, setUnhealthy_of_free np index h hmu, GoMap.get?_set_self _ _ _,
    GoMap.get?_delete_self _ _, by simp [GoMap.mem_keys_delete],
    fun _ hk => ⟨GoMap.get?_delete_ne _ hk, GoMap.get?_set_ne _ _ hk⟩⟩

/-- Witness of C13: the pool of the test `TestNodeProxy_SetUnhealthy`, one healthy
endpoint that is demoted. -/
theorem setUnhealthy_moves_entry_witness :
    ∃ np1, setUnhealthy singlePool "fail.com" 1 = .ret () np1 ∧
      np1.unhealthy.get? "fail.com" = some 1 ∧
      np1.clients.get? "fail.com" = none ∧
      "fail.com" ∉ np1.clients.keys ∧
      (∀ k, k ≠ "fail.com" → np1.clients.get? k = singlePool.clients.get? k ∧
        np1.unhealthy.get? k = singlePool.unhealthy.get? k) :=
  setUnhealthy_moves_entry singlePool "fail.com" 1 rfl (by decide)

/-- C14 (add inserts as healthy): for an id that is a key of neither map, after
`AddClient(id, handle)` the healthy map maps id to the handle, every other entry of the
healthy map is unchanged, the unhealthy map is unchanged (and has no entry for id), and
`clientCount` is one greater than before. -/
theorem AddClient_inserts_healthy (np : NodeProxy) (url : String) (client : EthClient)
    (hmu : np.mu = RWMutex.free)
    (_hc : url ∉ np.clients.keys) (hu : url ∉ np.unhealthy.keys) :
    ∃ np1, AddClient np url client = .ret () np1 ∧
      np1.clients.get? url = some client ∧
      (∀ k, k ≠ url → np1.clients.get? k = np.clients.get? k) ∧
      np1.unhealthy = np.unhealthy ∧
      np1.unhealthy.get? url = none ∧
      np1.clientCount = np.clientCount + 1 :=
  ⟨_, AddClient_of_free np url client hmu, GoMap.get?_set_self _ _ _,
    fun _ hk => GoMap.get?_set_ne _ _ hk, rfl, (GoMap.get?_eq_none_iff _ _).2 hu, rfl⟩

/-- Witness of C14: the test `TestNodeProxy_AddClient`, one `AddClient` on the pool of
`NewNodeProxy`. -/
theorem AddClient_inserts_healthy_witness :
    ∃ np1, AddClient NewNodeProxy "https://mainnet.infura.io/v3/key" 1 = .ret () np1 ∧
      np1.clients.get? "https://mainnet.infura.io/v3/key" = some 1 ∧
      (∀ k, k ≠ "https://mainnet.infura.io/v3/key" →
        np1.clients.get? k = NewNodeProxy.clients.get? k) ∧
      np1.unhealthy = NewNodeProxy.unhealthy ∧
      np1.unhealthy.get? "https://mainnet.infura.io/v3/key" = none ∧
      np1.clientCount = NewNodeProxy.clientCount + 1 :=
  AddClient_inserts_healthy NewNodeProxy "https://mainnet.infura.io/v3/key" 1 rfl
    (by decide) (by decide)

/-! ## Failover: termination and independence of the selection order -/

theorem BalanceAtFuel_returns (sel : GoMap EthClient → Nat) (up : Upstream) :
    ∀ (fuel : Nat) (np : NodeProxy), np.mu = RWMutex.free → np.clients.length < fuel →
      ∃ v np1 q, BalanceAtFuel sel up fuel np = some ⟨.ret v np1, q⟩ ∧
        q.length ≤ np.clients.length ∧
        np1.clients.length + q.length ≤ np.clients.length + 1 := by
  intro fuel
  induction fuel with
  | zero => intro np _ h; exact absurd h (Nat.not_lt_zero _)
  | succ fuel ih =>
    intro np hmu hlen
    cases hr : rangeFirst sel np.clients with
    | none =>
      exact ⟨_, np, [], BalanceAtFuel_succ_none sel up fuel np hmu hr, Nat.zero_le _,
        Nat.le_succ _⟩
    | some e =>
      obtain ⟨i, c⟩ := e
      have hmem : (i, c) ∈ np.clients := rangeFirst_mem hr
      have hpos : 0 < np.clients.length := List.length_pos_of_mem hmem
      by_cases hf : isFault (up.BalanceAt i c).2 = true
      · have hlt := GoMap.length_delete_lt (GoMap.mem_keys_of_mem hmem)
        simp only at hlt
        obtain ⟨v, np1, q, hrun, h1, h2⟩ :=
          ih { np with clients := np.clients.delete i, unhealthy := np.unhealthy.set i c } hmu
            (by simp only; omega)
        simp only at h1 h2
        refine ⟨v, np1, i :: q, ?_, ?_, ?_⟩
        · rw [BalanceAtFuel_succ_fault sel up fuel np i c hmu hr hf, hrun]
          rfl
        · simp only [List.length_cons]; omega
        · simp only [List.length_cons]; omega
      · have hf1 : isFault (up.BalanceAt i c).2 = false := by simpa using hf
        refine ⟨_, np, [i], BalanceAtFuel_succ_ok sel up fuel np i c hmu hr hf1, ?_, ?_⟩
        · simpa using hpos
        · simp

theorem BalanceAtFuel_succ_of_some (sel : GoMap EthClient → Nat) (up : Upstream) :
    ∀ (fuel : Nat) (np : NodeProxy) (r : Run (Option Int × Option GoError)),
      np.mu = RWMutex.free → BalanceAtFuel sel up fuel np = some r →
      BalanceAtFuel sel up (fuel + 1) np = some r := by
  intro fuel
  induction fuel with
  | zero => intro np r _ h; simp [BalanceAtFuel] at h
  | succ fuel ih =>
    intro np r hmu h
    cases hr : rangeFirst sel np.clients with
    | none =>
      rw [BalanceAtFuel_succ_none sel up fuel np hmu hr] at h
      rw [BalanceAtFuel_succ_none sel up (fuel + 1) np hmu hr, h]
    | some e =>
      obtain ⟨i, c⟩ := e
      by_cases hf : isFault (up.BalanceAt i c).2 = true
      · rw [BalanceAtFuel_succ_fault sel up fuel np i c hmu hr hf] at h
        rw [BalanceAtFuel_succ_fault sel up (fuel + 1) np i c hmu hr hf]
        simp only [Option.map_eq_some'] at h ⊢
        obtain ⟨r0, hr0, hr1⟩ := h
        exact ⟨r0, ih _ r0 hmu hr0, hr1⟩
      · have hf1 : isFault (up.BalanceAt i c).2 = false := by simpa using hf
        rw [BalanceAtFuel_succ_ok sel up fuel np i c hmu hr hf1] at h
        rw [BalanceAtFuel_succ_ok sel up (fuel + 1) np i c hmu hr hf1, h]

theorem BalanceAtFuel_of_le (sel : GoMap EthClient → Nat) (up : Upstream) (np : NodeProxy)
    (r : Run (Option Int × Option GoError)) (hmu : np.mu = RWMutex.free) :
    ∀ (fuel fuel1 : Nat), fuel ≤ fuel1 → BalanceAtFuel sel up fuel np = some r →
      BalanceAtFuel sel up fuel1 np = some r := by
  intro fuel fuel1 hle h
  induction hle with
  | refl => exact h
  | step _ ih => exact BalanceAtFuel_succ_of_some sel up _ np r hmu ih

/-- C15 (failover terminates): from an unlocked mutex, whatever the endpoints answer and
whatever order `getClient` follows, the recursion of `BalanceAt` limited to depth
`N + 1`, the call itself and `N` recursive calls where `N` is the number of healthy
endpoints at the start, returns a result, and so does, with the same result, every
larger limit.  At most `N` upstream queries are made, one before each retry, and the
healthy map has lost an entry for every query but possibly the last. -/
theorem BalanceAt_terminates (sel : GoMap EthClient → Nat) (up : Upstream) (np : NodeProxy)
    (hmu : np.mu = RWMutex.free) :
    ∃ v np1 q, BalanceAt sel up np = some ⟨.ret v np1, q⟩ ∧
      q.length ≤ np.clients.length ∧
      np1.clients.length + q.length ≤ np.clients.length + 1 ∧
      ∀ fuel, np.clients.length < fuel →
        BalanceAtFuel sel up fuel np = BalanceAt sel up np := by
  obtain ⟨v, np1, q, hrun, h1, h2⟩ :=
    BalanceAtFuel_returns sel up (np.clients.length + 1) np hmu (Nat.lt_succ_self _)
  refine ⟨v, np1, q, hrun, h1, h2, ?_⟩
  intro fuel hfuel
  unfold BalanceAt
  rw [hrun]
  exact BalanceAtFuel_of_le sel up np _ hmu _ fuel hfuel hrun

/-- Witness of C15: three healthy endpoints of which "a" and "c" fail. -/
theorem BalanceAt_terminates_witness :
    ∃ v np1 q, BalanceAt (fun _ => 2) oneGoodUpstream triplePool = some ⟨.ret v np1, q⟩ ∧
      q.length ≤ triplePool.clients.length ∧
      np1.clients.length + q.length ≤ triplePool.clients.length + 1 ∧
      ∀ fuel, triplePool.clients.length < fuel →
        BalanceAtFuel (fun _ => 2) oneGoodUpstream fuel triplePool =
          BalanceAt (fun _ => 2) oneGoodUpstream triplePool :=
  BalanceAt_terminates (fun _ => 2) oneGoodUpstream triplePool rfl

theorem BalanceAtFuel_some_success (sel : GoMap EthClient → Nat) (up : Upstream) :
    ∀ (fuel : Nat) (np : NodeProxy), np.mu = RWMutex.free → np.clients.keys.Nodup →
      np.clients.length < fuel →
      (∃ e ∈ np.clients, (up.BalanceAt e.1 e.2).2 = none) →
      (∀ e ∈ np.clients, (up.BalanceAt e.1 e.2).2 = none ∨
        isFault (up.BalanceAt e.1 e.2).2 = true) →
      ∃ e ∈ np.clients, (up.BalanceAt e.1 e.2).2 = none ∧
        ∃ np1 q, BalanceAtFuel sel up fuel np =
          some ⟨.ret ((up.BalanceAt e.1 e.2).1, none) np1, q⟩ := by
  intro fuel
  induction fuel with
  | zero => intro np _ _ h; exact absurd h (Nat.not_lt_zero _)
  | succ fuel ih =>
    intro np hmu hn hlen hgood hall
    cases hr : rangeFirst sel np.clients with
    | none =>
      obtain ⟨e, he, _⟩ := hgood
      rw [(rangeFirst_eq_none_iff sel _).1 hr] at he
      cases he
    | some x =>
      obtain ⟨i, c⟩ := x
      have hmem : (i, c) ∈ np.clients := rangeFirst_mem hr
      rcases hall (i, c) hmem with hok | hf
      · have hf1 : isFault (up.BalanceAt i c).2 = false := by
          simp only at hok
          rw [hok]
          rfl
        exact ⟨(i, c), hmem, hok, np, [i], BalanceAtFuel_succ_ok sel up fuel np i c hmu hr hf1⟩
      · simp only at hf
        have hlt := GoMap.length_delete_lt (GoMap.mem_keys_of_mem hmem)
        simp only at hlt
        obtain ⟨e0, he0, hgood0⟩ := hgood
        have hne : e0.1 ≠ i := by
          intro h
          have h1 := GoMap.get?_of_mem_of_nodup hn (show (e0.1, e0.2) ∈ np.clients from he0)
          have h2 := GoMap.get?_of_mem_of_nodup hn hmem
          rw [h, h2] at h1
          have hc : e0.2 = c := (Option.some.inj h1).symm
          rw [h, hc] at hgood0
          rw [hgood0] at hf
          cases hf
        obtain ⟨e, he, hegood, np1, q, hrun⟩ :=
          ih { np with clients := np.clients.delete i, unhealthy := np.unhealthy.set i c } hmu
            (GoMap.nodup_keys_delete i hn) (by simp only; omega)
            ⟨e0, List.mem_filter.2 ⟨he0, by simpa using hne⟩, hgood0⟩
            (fun e he => hall e (List.mem_of_mem_filter he))
        refine ⟨e, List.mem_of_mem_filter he, hegood, np1, i :: q, ?_⟩
        rw [BalanceAtFuel_succ_fault sel up fuel np i c hmu hr hf, hrun]
        rfl

/-- C17 (the failover result does not depend on the selection order): when at least one
healthy endpoint answers the balance query without error and every other healthy
endpoint answers without error or fails with an error that is not `context.Canceled`,
`BalanceAt` returns, for every order in which `getClient` hands out the endpoints, a nil
error and the balance answered by one of the endpoints that answer without error. -/
theorem BalanceAt_returns_some_success (sel : GoMap EthClient → Nat) (up : Upstream)
    (np : NodeProxy) (hmu : np.mu = RWMutex.free) (hn : np.clients.keys.Nodup)
    (hgood : ∃ e ∈ np.clients, (up.BalanceAt e.1 e.2).2 = none)
    (hall : ∀ e ∈ np.clients, (up.BalanceAt e.1 e.2).2 = none ∨
      isFault (up.BalanceAt e.1 e.2).2 = true) :
    ∃ e ∈ np.clients, (up.BalanceAt e.1 e.2).2 = none ∧
      ∃ np1 q, BalanceAt sel up np = some ⟨.ret ((up.BalanceAt e.1 e.2).1, none) np1, q⟩ :=
  BalanceAtFuel_some_success sel up (np.clients.length + 1) np hmu hn (Nat.lt_succ_self _)
    hgood hall

/-- Witness of C17: the case "2 clients" of `TestNodeProxy_BalanceAt`, one endpoint
answers 10 and the other fails with "test error"; the result is `(10, nil)` in both
selection orders. -/
theorem BalanceAt_returns_some_success_witness :
    BalanceAt (fun _ => 0) oneGoodUpstream pairPool =
      some ⟨.ret (some 10, none)
        { clients := [("b", 2)], unhealthy := [("a", 1)], mu := RWMutex.free, clientCount := 2 },
        ["a", "b"]⟩ ∧
    BalanceAt (fun _ => 1) oneGoodUpstream pairPool =
      some ⟨.ret (some 10, none) pairPool, ["b"]⟩ ∧
    ∃ e ∈ pairPool.clients, (oneGoodUpstream.BalanceAt e.1 e.2).2 = none ∧
      ∃ np1 q, BalanceAt (fun _ => 0) oneGoodUpstream pairPool =
        some ⟨.ret ((oneGoodUpstream.BalanceAt e.1 e.2).1, none) np1, q⟩ :=
  ⟨by decide, by decide,
    BalanceAt_returns_some_success (fun _ => 0) oneGoodUpstream pairPool rfl (by decide)
      ⟨("b", 2), by decide, rfl⟩ (by decide)⟩

/-! ## Height consensus: rounds with a faulting endpoint -/

theorem scanStep_eq_of_fault (up : Upstream) (st : Scan) (e : String × EthClient)
    (hf : isFault (up.BlockNumber e.1 e.2).2 = true) :
    ∃ msg, scanStep up st e =
      { st with unhealthy := st.unhealthy.set e.1 e.2, errStr := st.errStr ++ [msg] } := by
  cases herr : (up.BlockNumber e.1 e.2).2 with
  | none =>
    rw [herr] at hf
    cases hf
  | some er =>
    have hc : er.isCanceled = false := by simpa [herr, isFault] using hf
    exact ⟨er.msg, by simp [scanStep, herr, hc]⟩

theorem scanStep_eq_of_not_fault (up : Upstream) (st : Scan) (e : String × EthClient)
    (hf : isFault (up.BlockNumber e.1 e.2).2 = false) :
    scanStep up st e = st.sample e.1 (up.BlockNumber e.1 e.2).1 := by
  cases herr : (up.BlockNumber e.1 e.2).2 with
  | none => simp only [scanStep, herr]
  | some er =>
    have hc : er.isCanceled = true := by simpa [herr, isFault] using hf
    simp [scanStep, herr, hc]

theorem scanStep_lowest_eq_highest (up : Upstream) (st : Scan) (e : String × EthClient)
    (heq : st.lowest = st.highest) : (scanStep up st e).lowest = (scanStep up st e).highest := by
  by_cases hf : isFault (up.BlockNumber e.1 e.2).2 = true
  · obtain ⟨msg, h⟩ := scanStep_eq_of_fault up st e hf
    rw [h]
    exact heq
  · rw [scanStep_eq_of_not_fault up st e (by simpa using hf)]
    simp only [Scan.sample, heq]

theorem scan_lowest_eq_highest (up : Upstream) :
    ∀ (cl : GoMap EthClient) (st : Scan), st.lowest = st.highest →
      (cl.foldl (scanStep up) st).lowest = (cl.foldl (scanStep up) st).highest := by
  intro cl
  induction cl with
  | nil => intro st h; exact h
  | cons e cl ih => intro st h; exact ih _ (scanStep_lowest_eq_highest up st e h)

theorem lagCheck_scanClients (up : Upstream) (cl : GoMap EthClient) :
    lagCheck cl (scanClients up cl) = scanClients up cl := by
  have h : (scanClients up cl).lowest = (scanClients up cl).highest :=
    scan_lowest_eq_highest up cl ⟨[], [], 0, 0, []⟩ rfl
  unfold lagCheck
  rw [h, uint64Sub_self, if_neg (by decide)]

theorem scanStep_unhealthy_ne_nil (up : Upstream) (st : Scan) (e : String × EthClient)
    (h : st.unhealthy ≠ [] ∨ isFault (up.BlockNumber e.1 e.2).2 = true) :
    (scanStep up st e).unhealthy ≠ [] := by
  by_cases hf : isFault (up.BlockNumber e.1 e.2).2 = true
  · obtain ⟨msg, hs⟩ := scanStep_eq_of_fault up st e hf
    rw [hs]
    simp [GoMap.set]
  · rw [scanStep_eq_of_not_fault up st e (by simpa using hf)]
    rcases h with h | h
    · exact h
    · exact absurd h hf

theorem scan_unhealthy_ne_nil (up : Upstream) :
    ∀ (cl : GoMap EthClient) (st : Scan),
      (st.unhealthy ≠ [] ∨ ∃ e ∈ cl, isFault (up.BlockNumber e.1 e.2).2 = true) →
      (cl.foldl (scanStep up) st).unhealthy ≠ [] := by
  intro cl
  induction cl with
  | nil =>
    intro st h
    rcases h with h | ⟨e, he, _⟩
    · exact h
    · cases he
  | cons x cl ih =>
    intro st h
    simp only [List.foldl_cons]
    apply ih
    rcases h with h | ⟨e, he, hf⟩
    · exact Or.inl (scanStep_unhealthy_ne_nil up st x (Or.inl h))
    · rcases List.mem_cons.1 he with hx | hx
      · subst hx
        exact Or.inl (scanStep_unhealthy_ne_nil up st e (Or.inr hf))
      · exact Or.inr ⟨e, hx, hf⟩

theorem setUnhealthyAll_readLocked (np : NodeProxy) (l : List (String × EthClient))
    (hl : l ≠ []) : setUnhealthyAll (readLocked np) l = .blocked (readLocked np) := by
  cases l with
  | nil => exact absurd rfl hl
  | cons x l =>
    obtain ⟨i, c⟩ := x
    simp [setUnhealthyAll, setUnhealthy, readLocked, RWMutex.Lock]

theorem BlockNumber_blocked_of_fault (up : Upstream) (np : NodeProxy)
    (hmu : np.mu = RWMutex.free)
    (hf : ∃ e ∈ np.clients, isFault (up.BlockNumber e.1 e.2).2 = true) :
    BlockNumber up np = .blocked (readLocked np) := by
  obtain ⟨cl, un, mu, n⟩ := np
  simp only at hmu hf
  subst hmu
  have hne : (scanClients up cl).unhealthy ≠ [] :=
    scan_unhealthy_ne_nil up cl ⟨[], [], 0, 0, []⟩ (Or.inr hf)
  have hb := setUnhealthyAll_readLocked ⟨cl, un, RWMutex.free, n⟩ _ hne
  unfold BlockNumber
  simp only [RWMutex.RLock, RWMutex.free, Bool.false_eq_true, if_false]
  rw [lagCheck_scanClients]
  simp only [readLocked, RWMutex.free] at hb
  simp only [Nat.zero_add]
  rw [hb]
  rfl

theorem BlockNumber_verdict_of_no_fault (up : Upstream) (np : NodeProxy)
    (hmu : np.mu = RWMutex.free)
    (hf : ∀ e ∈ np.clients, isFault (up.BlockNumber e.1 e.2).2 = false) :
    ∃ h err, BlockNumber up np = .ret (h, err) np ∧ (err = none ↔ np.unhealthy = []) := by
  refine ⟨_, _, BlockNumber_of_no_fault up np hmu hf, ?_⟩
  by_cases hun : np.unhealthy = []
  · simp [hun]
  · simp [hun]

/-- C16 (code defect): on the pool with the single healthy endpoint "fail.com" whose height
query fails, `BlockNumber` takes the read lock, collects "fail.com" in its local map
`unhealthy` and calls `setUnhealthy` before the deferred `RUnlock` has run: the write
lock is requested in a state with one read lock held, the request cannot be granted, and
the call waits for ever in that state. -/
theorem BlockNumber_requests_write_lock_under_read_lock :
    (lagCheck singlePool.clients (scanClients unreachableUpstream singlePool.clients)).unhealthy =
      [("fail.com", 1)] ∧
    (readLocked singlePool).mu.readers = 1 ∧
    (readLocked singlePool).mu.Lock = none ∧
    setUnhealthy (readLocked singlePool) "fail.com" 1 = .blocked (readLocked singlePool) ∧
    BlockNumber unreachableUpstream singlePool = .blocked (readLocked singlePool) := by
  decide

/-- C18 (code defect): on the pool with the healthy endpoints "a", which answers height
100, and "b", whose height query fails with "connection refused", `BlockNumber` does not
return: it waits for ever in `setUnhealthy` with its read lock held, and "b" is still in
the healthy map and not in the unhealthy map. -/
theorem BlockNumber_faulting_endpoint_not_demoted :
    isFault (partlyFaultyUpstream.BlockNumber "b" 2).2 = true ∧
    BlockNumber partlyFaultyUpstream pairPool = .blocked (readLocked pairPool) ∧
    (readLocked pairPool).clients.get? "b" = some 2 ∧
    (readLocked pairPool).unhealthy.get? "b" = none := by
  decide

/-- C19 (code defect): on the pool with the healthy endpoint "a", whose height query
fails, and the unhealthy endpoint "b", `BlockNumber` returns neither a nil nor a non-nil
error: it waits for ever in `setUnhealthy` with its read lock held, "a" is not demoted,
and the same happens when the unhealthy map is empty at the start. -/
theorem BlockNumber_no_verdict_on_fault :
    BlockNumber unreachableUpstream mixedPool = .blocked (readLocked mixedPool) ∧
    (readLocked mixedPool).unhealthy = [("b", 2)] ∧
    BlockNumber unreachableUpstream pairPool = .blocked (readLocked pairPool) ∧
    (readLocked pairPool).unhealthy = [] := by
  decide


end EthProxy
